import Mathlib

/-!
# go-gitignore: exclusion rules and the last-match-wins scan

A shallow embedding of `exclude.go`, `exclude_list.go` and `gitignore.go`.

* Go strings are byte sequences: `Str := List UInt8`; `len`, slicing and indexing count bytes.
* Go `int` values are `Int` (the not-found result `-1` of `strings.Index` is kept as such).
* A Go `panic` (slice or index out of range, the explicit assertion of
  `LastExcludeMatchingFromList`, or a panic raised inside the glob library) is the `error`
  case of `Go α := Except Panic α`.
* What the package reads from its surroundings is gathered in `Env`: the package variable
  `wildmatch.SystemCase`, the library function `strings.EqualFold`, and the glob engine
  `wildmatch.NewWildmatch(pattern, opts...).Match(candidate)`, which either answers or
  panics (as `NewWildmatch` does on a malformed pattern).
-/

namespace Gitignore

/-! ## Go strings and the library functions the package calls -/

/-- One byte of a Go string. -/
abbrev Byte := UInt8

/-- Go `string`: an immutable sequence of bytes. -/
abbrev Str := List UInt8

/-- The bytes of an ASCII literal (for ASCII text the UTF-8 bytes are the code points). -/
def bytes (s : String) : Str := s.toList.map Char.toUInt8

/-- Byte `'/'`. -/
def slash : Byte := 47
/-- Byte `'!'`. -/
def bang : Byte := 33
/-- Byte `'*'`. -/
def star : Byte := 42
/-- Byte `'?'`. -/
def question : Byte := 63
/-- Byte `'['`. -/
def lbracket : Byte := 91
/-- Byte `'\\'`. -/
def backslash : Byte := 92

/-- Run-time failures of the Go program. -/
inductive Panic where
  /-- Slice bounds out of range. -/
  | sliceBounds
  /-- Index out of range. -/
  | indexRange
  /-- The `panic("assertion failed, Exclude.Base  is invalid")` of the scan. -/
  | invalidBase
  /-- A panic raised inside the glob engine, as `wildmatch.NewWildmatch` does on a
  malformed pattern. -/
  | wildmatch
  deriving DecidableEq, Repr

/-- A Go computation that returns a value or panics. -/
abbrev Go (α : Type) := Except Panic α

instance instDecidableEqGo {α : Type} [DecidableEq α] : DecidableEq (Go α)
  | .ok a, .ok b => if h : a = b then isTrue (by rw [h]) else isFalse (fun h2 => h (by cases h2; rfl))
  | .error a, .error b =>
      if h : a = b then isTrue (by rw [h]) else isFalse (fun h2 => h (by cases h2; rfl))
  | .ok _, .error _ => isFalse (fun h => by cases h)
  | .error _, .ok _ => isFalse (fun h => by cases h)

/-- Go `len(s)`. -/
def len (s : Str) : Int := (s.length : Int)

/-- Go `s[lo:]`; panics unless `0 ≤ lo ≤ len(s)`. -/
def sliceFrom (s : Str) (lo : Int) : Go Str :=
  if 0 ≤ lo ∧ lo ≤ len s then .ok (s.drop lo.toNat) else .error Panic.sliceBounds

/-- Go `s[:hi]`; panics unless `0 ≤ hi ≤ len(s)`. -/
def sliceTo (s : Str) (hi : Int) : Go Str :=
  if 0 ≤ hi ∧ hi ≤ len s then .ok (s.take hi.toNat) else .error Panic.sliceBounds

/-- Go `s[i]`; panics unless `0 ≤ i < len(s)`. -/
def byteAt (s : Str) (i : Int) : Go Byte :=
  if 0 ≤ i then
    match s.get? i.toNat with
    | some b => .ok b
    | none => .error Panic.indexRange
  else .error Panic.indexRange

/-- Go `strings.HasPrefix(s, p)`. -/
def stringsHasPrefix (s p : Str) : Bool := p.isPrefixOf s

/-- Go `strings.HasSuffix(s, p)`. -/
def stringsHasSuffix (s p : Str) : Bool := p.isSuffixOf s

/-- Go `strings.IndexFunc(s, f)` for a predicate `f` that holds of ASCII characters only:
the byte index of the first character satisfying `f`, or `-1`. (UTF-8 decoding maps every
byte below `0x80` to itself and never produces an ASCII character from other bytes, so the
first such character sits at the first such byte.) -/
def stringsIndexFunc (s : Str) (f : Byte → Bool) : Int :=
  if s.findIdx f < s.length then (s.findIdx f : Int) else -1

/-- Search loop of `strings.Index`, `i` being the offset of the text still to search. -/
def stringsIndexFrom (sep : Str) : Str → Int → Int
  | [], i => if sep = [] then i else -1
  | c :: cs, i => if sep.isPrefixOf (c :: cs) then i else stringsIndexFrom sep cs (i + 1)

/-- Go `strings.Index(s, sep)`: offset of the first occurrence of `sep` in `s`, or `-1`. -/
def stringsIndex (s sep : Str) : Int := stringsIndexFrom sep s 0

/-- Go `strings.Compare(a, b)`: lexicographic comparison of the bytes, `-1`, `0` or `1`. -/
def stringsCompare : Str → Str → Int
  | [], [] => 0
  | [], _ :: _ => -1
  | _ :: _, [] => 1
  | a :: as, b :: bs => if a < b then -1 else if b < a then 1 else stringsCompare as bs

/-- Go `path.Base(p)`: `"."` for the empty path; otherwise trailing slashes are
stripped, everything up to the last remaining `'/'` is dropped, and a path made only of
slashes gives `"/"`. -/
def pathBase (p : Str) : Str :=
  if p = [] then bytes "."
  else
    let stripped := (p.reverse.dropWhile (fun c => c == slash)).reverse
    let last := (stripped.reverse.takeWhile (fun c => c != slash)).reverse
    if last = [] then bytes "/" else last

/-- The surroundings of the package. -/
structure Env where
  /-- Whether the package variable `wildmatch.SystemCase` is `nil` (case-sensitive mode). -/
  SystemCaseNil : Bool
  /-- Go `strings.EqualFold`. -/
  EqualFold : Str → Str → Bool
  /-- The glob engine: `Wildmatch pattern caseFold candidate` is what
  `wildmatch.NewWildmatch(pattern, opts...).Match(candidate)` returns, where `caseFold`
  tells whether the option `wildmatch.CaseFold` is among `opts`; it is `none` when the
  library call panics, as `NewWildmatch` does on a malformed pattern. -/
  Wildmatch : Str → Bool → Str → Option Bool

/-- The call `wildmatch.NewWildmatch(pattern, opts...).Match(candidate)` made by the
package: a panic of the library is a panic of the caller. -/
def globMatch (env : Env) (pattern : Str) (caseFold : Bool) (candidate : Str) : Go Bool :=
  match env.Wildmatch pattern caseFold candidate with
  | some matched => .ok matched
  | none => .error Panic.wildmatch

/-! ## exclude.go -/

/-- Go `type ExcludeFlags uint`. -/
abbrev ExcludeFlags := Nat

/-- Flag `ExcFlagNodir = 1 << 0`. -/
def ExcFlagNodir : ExcludeFlags := 1
/-- Flag `ExcFlagEndswith = 1 << 2`. -/
def ExcFlagEndswith : ExcludeFlags := 4
/-- Flag `ExcFlagMustbedir = 1 << 3`. -/
def ExcFlagMustbedir : ExcludeFlags := 8
/-- Flag `ExcFlagNegative = 1 << 4`. -/
def ExcFlagNegative : ExcludeFlags := 16

/-- Go `f&flag != 0`. -/
def hasFlag (f flag : ExcludeFlags) : Bool := f &&& flag != 0

/-- Go `type Exclude struct`. -/
structure Exclude where
  Pattern : Str
  Base : Str
  Flags : ExcludeFlags
  SourcePos : Int
  deriving DecidableEq, Repr

/-- Go `IsGlobSpecial`: membership in `"*?[\\"`. -/
def IsGlobSpecial (c : Byte) : Bool :=
  c == star || c == question || c == lbracket || c == backslash

/-- Go `NoWildcard`. -/
def NoWildcard (pattern : Str) : Bool :=
  let firstGlob := stringsIndexFunc pattern IsGlobSpecial
  firstGlob == -1

/-- Go `SimpleLength`. -/
def SimpleLength (pattern : Str) : Int :=
  let firstGlob := stringsIndexFunc pattern IsGlobSpecial
  if firstGlob == -1 then len pattern else firstGlob

/-- Go `ParseExcludePattern`. -/
def ParseExcludePattern (pattern : Str) : Go (Str × ExcludeFlags) := do
  let flags : ExcludeFlags := 0
  let (pattern, flags) ←
    if stringsHasPrefix pattern (bytes "!") then do
      let rest ← sliceFrom pattern 1
      pure (rest, flags ||| ExcFlagNegative)
    else pure (pattern, flags)
  let (pattern, flags) ←
    if stringsHasSuffix pattern (bytes "/") then do
      let rest ← sliceTo pattern (len pattern - 1)
      pure (rest, flags ||| ExcFlagMustbedir)
    else pure (pattern, flags)
  let firstSlash := stringsIndex pattern (bytes "/")
  let flags := if firstSlash == -1 || firstSlash == len pattern - 1 then flags ||| ExcFlagNodir else flags
  let endswith ←
    if stringsHasPrefix pattern (bytes "*") then do
      let rest ← sliceFrom pattern 1
      pure (NoWildcard rest)
    else pure false
  let flags := if endswith then flags ||| ExcFlagEndswith else flags
  pure (pattern, flags)

/-- Go `CreateExclude`. -/
def CreateExclude (pattern base : Str) (srcpos : Int) : Go Exclude := do
  let (pattern, flags) ← ParseExcludePattern pattern
  pure { Pattern := pattern, Base := base, Flags := flags, SourcePos := srcpos }

/-! ## exclude_list.go -/

/-- Go `type ExcludeList struct`. -/
structure ExcludeList where
  Excludes : List Exclude
  deriving DecidableEq, Repr

/-- Go `CreateExcludeList`. -/
def CreateExcludeList : ExcludeList := { Excludes := [] }

/-- Go `(*ExcludeList).AddExclude`: the list after the call. -/
def ExcludeList.AddExclude (list : ExcludeList) (pattern base : Str) (srcpos : Int) :
    Go ExcludeList := do
  let e ← CreateExclude pattern base srcpos
  pure { Excludes := list.Excludes ++ [e] }

/-! ## gitignore.go -/

/-- Go `os.ModeDir = 1 << 31`. -/
def ModeDir : Nat := 2147483648

/-- Go `type Dirent struct`; `modeType` is an `os.FileMode` (`uint32`). -/
structure Dirent where
  pathname : Str
  basename : Str
  modeType : Nat
  deriving DecidableEq, Repr

/-- Go `os.FileMode.IsDir`: `m&ModeDir != 0`. -/
def Dirent.IsDir (d : Dirent) : Bool := d.modeType &&& ModeDir != 0

/-- Go `type IsExcluded int`. -/
abbrev IsExcluded := Int

/-- Go constant `Excluded`. -/
def Excluded : IsExcluded := 1
/-- Go constant `NotExcluded`. -/
def NotExcluded : IsExcluded := 0
/-- Go constant `ExclusionUndecided`. -/
def ExclusionUndecided : IsExcluded := -1

/-- Go `fspathncmp`. -/
def fspathncmp (env : Env) (a b : Str) (count : Int) : Go Bool :=
  if env.SystemCaseNil then do
    let a1 ← sliceTo a count
    let b1 ← sliceTo b count
    pure (stringsCompare a1 b1 == 0)
  else do
    let a1 ← sliceTo a count
    let b1 ← sliceTo b count
    pure (env.EqualFold a1 b1)

/-- Go `MatchBasename`. -/
def MatchBasename (env : Env) (dirent : Dirent) (exclude : Exclude) : Go Bool := do
  let pattern := exclude.Pattern
  let patternlen := len pattern
  let prefixlen := SimpleLength pattern
  let basename := pathBase dirent.pathname
  let basenamelen := len basename
  if prefixlen == patternlen then
    if patternlen == basenamelen then
      if ← fspathncmp env pattern basename basenamelen then return true
    return false
  else if hasFlag exclude.Flags ExcFlagEndswith then
    if patternlen - 1 ≤ basenamelen then
      let p1 ← sliceFrom pattern 1
      let b1 ← sliceFrom basename (basenamelen - (patternlen - 1))
      if ← fspathncmp env p1 b1 (patternlen - 1) then return true
    return false
  else
    globMatch env pattern true basename

/-- Go `MatchPathname`. The `fmt.Printf` traces are left out, except for the slice
`pattern[prefix:]` that one of them evaluates. The condition
`pathlen < baselen+1 || (baselen != 0 && pathname[baselen] != '/') || !fspathncmp(...)`
is evaluated left to right with short circuit, as `outside`. -/
def MatchPathname (env : Env) (dirent : Dirent) (exclude : Exclude) : Go Bool := do
  let pattern := exclude.Pattern
  let pathlen := len dirent.pathname
  let baselen := len exclude.Base
  let baselen := if stringsHasSuffix exclude.Base (bytes "/") then baselen - 1 else baselen
  let pattern ← (if stringsHasPrefix pattern (bytes "/") then sliceFrom pattern 1 else pure pattern)
  let outside ← (
    if pathlen < baselen + 1 then pure true
    else do
      let notSlash ← (
        if baselen != 0 then do
          let c ← byteAt dirent.pathname baselen
          pure (c != slash)
        else pure false)
      if notSlash then pure true
      else do
        let same ← fspathncmp env dirent.pathname exclude.Base baselen
        pure (!same))
  if outside then return false
  else
    let name ← sliceFrom dirent.pathname baselen
    let name ← (if stringsHasPrefix name (bytes "/") then sliceFrom name 1 else pure name)
    let namelen := len name
    let prefixlen := SimpleLength pattern
    let _ ← sliceFrom pattern prefixlen
    if prefixlen > 0 then
      if prefixlen > namelen then return false
      else
        let same ← fspathncmp env pattern name prefixlen
        if !same then return false
        else
          let pattern ← sliceFrom pattern prefixlen
          let name ← sliceFrom name prefixlen
          if len pattern == 0 && len name == 0 then return true
          else globMatch env pattern true dirent.pathname
    else globMatch env pattern true dirent.pathname

/-- The loop of `LastExcludeMatchingFromList`: `scanFrom env dirent excludes n` runs the
iterations `i = n-1, n-2, ..., 0`. -/
def scanFrom (env : Env) (dirent : Dirent) (excludes : List Exclude) :
    Nat → Go (Option Exclude)
  | 0 => pure none
  | i + 1 =>
    match excludes.get? i with
    | none => .error Panic.indexRange
    | some e =>
      if hasFlag e.Flags ExcFlagMustbedir && !dirent.IsDir then
        scanFrom env dirent excludes i
      else if hasFlag e.Flags ExcFlagNodir then do
        let matched ← MatchBasename env dirent e
        if matched then return some e
        else scanFrom env dirent excludes i
      else if len e.Base != 0 && !stringsHasSuffix e.Base (bytes "/") then
        .error Panic.invalidBase
      else do
        let matched ← MatchPathname env dirent e
        if matched then return some e
        else scanFrom env dirent excludes i

/-- Go `LastExcludeMatchingFromList`; `none` is the `nil` result. -/
def LastExcludeMatchingFromList (env : Env) (dirent : Dirent) (el : ExcludeList) :
    Go (Option Exclude) :=
  scanFrom env dirent el.Excludes el.Excludes.length

/-- Go `IsExcludedFromList`. -/
def IsExcludedFromList (env : Env) (dirent : Dirent) (el : ExcludeList) : Go IsExcluded := do
  let exclude ← LastExcludeMatchingFromList env dirent el
  match exclude with
  | none => pure (-1)
  | some e => if hasFlag e.Flags ExcFlagNegative then pure 0 else pure 1

/-! ## Definitions used to state the properties -/

/-- The four conditional `flags |= ...` of `ParseExcludePattern`, as a function of the
four conditions. -/
def mkFlags (neg mustbedir nodir endswith : Bool) : ExcludeFlags :=
  let flags : ExcludeFlags := 0
  let flags := if neg then flags ||| ExcFlagNegative else flags
  let flags := if mustbedir then flags ||| ExcFlagMustbedir else flags
  let flags := if nodir then flags ||| ExcFlagNodir else flags
  if endswith then flags ||| ExcFlagEndswith else flags

/-- The text left after removing one leading `'!'`, if there is one. -/
def dropBang : Str → Str
  | [] => []
  | c :: t => if c = bang then t else c :: t

/-- The text left after removing one trailing `'/'`, if there is one. -/
def dropTrailingSlash (s : Str) : Str :=
  if s.getLast? = some slash then s.dropLast else s

/-- The normalised pattern text: one leading `'!'` removed, then one trailing `'/'`. -/
def normalise (raw : Str) : Str := dropTrailingSlash (dropBang raw)

/-- The last path segment: the text after the last `'/'`, or the whole path if it has
none. -/
def lastSegment (path : Str) : Str := (path.reverse.takeWhile (fun c => c != slash)).reverse

/-! ## Closed forms of the fallible functions

Each is proved equal to the `Go` computation it describes: none of the slices and indexings
of that computation panics, and what is left of it is the call of the glob engine. -/

/-- The comparison made by `fspathncmp` on the first `n` bytes, when both slices are in
range. -/
def cmpN (env : Env) (a b : Str) (n : Nat) : Bool :=
  if env.SystemCaseNil then decide (a.take n = b.take n) else env.EqualFold (a.take n) (b.take n)

/-- The outcome of `MatchBasename` (see `MatchBasename_eq`). -/
def basenameResult (env : Env) (dirent : Dirent) (exclude : Exclude) : Go Bool :=
  let pattern := exclude.Pattern
  let basename := pathBase dirent.pathname
  if SimpleLength pattern = len pattern then
    .ok (decide (len pattern = len basename) && cmpN env pattern basename basename.length)
  else if hasFlag exclude.Flags ExcFlagEndswith then
    .ok (decide (len pattern - 1 ≤ len basename) &&
      cmpN env pattern.tail (basename.drop (basename.length - (pattern.length - 1)))
        (pattern.length - 1))
  else globMatch env pattern true basename

/-- The outcome of `MatchPathname` (see `MatchPathname_eq`). -/
def pathnameResult (env : Env) (dirent : Dirent) (exclude : Exclude) : Go Bool :=
  let pattern :=
    if stringsHasPrefix exclude.Pattern (bytes "/") then exclude.Pattern.tail else exclude.Pattern
  let baselen : Int :=
    if stringsHasSuffix exclude.Base (bytes "/") then len exclude.Base - 1 else len exclude.Base
  if len dirent.pathname < baselen + 1 then .ok false
  else if baselen ≠ 0 ∧ dirent.pathname.get? baselen.toNat ≠ some slash then .ok false
  else if cmpN env dirent.pathname exclude.Base baselen.toNat = false then .ok false
  else
    let name0 := dirent.pathname.drop baselen.toNat
    let name := if stringsHasPrefix name0 (bytes "/") then name0.tail else name0
    let prefixlen := SimpleLength pattern
    if prefixlen > 0 then
      if prefixlen > len name then .ok false
      else if cmpN env pattern name prefixlen.toNat = false then .ok false
      else if pattern.drop prefixlen.toNat = [] ∧ name.drop prefixlen.toNat = [] then .ok true
      else globMatch env (pattern.drop prefixlen.toNat) true dirent.pathname
    else globMatch env pattern true dirent.pathname

/-! ## Rules, matches and verdicts -/

/-- A base is well formed when it is empty or ends with `'/'`. -/
def validBase (base : Str) : Prop := base = [] ∨ base.getLast? = some slash

instance instDecidableValidBase (base : Str) : Decidable (validBase base) := by
  unfold validBase; exact inferInstance

/-- A rule matches a candidate: it is not a `ExcFlagMustbedir` rule facing a non-directory,
and `MatchBasename` holds if it has `ExcFlagNodir`, `MatchPathname` holds otherwise. -/
def ruleMatches (env : Env) (dirent : Dirent) (e : Exclude) : Prop :=
  ¬ (hasFlag e.Flags ExcFlagMustbedir = true ∧ dirent.IsDir = false) ∧
  (if hasFlag e.Flags ExcFlagNodir = true then MatchBasename env dirent e = .ok true
   else MatchPathname env dirent e = .ok true)

/-- The verdict a matching rule gives: `NotExcluded` if negated, `Excluded` if not. -/
def verdict (e : Exclude) : IsExcluded :=
  if hasFlag e.Flags ExcFlagNegative then NotExcluded else Excluded

/-- Adding `(pattern, base, srcpos)` triples in order with `AddExclude` to an empty list. -/
def addAll (ts : List (Str × Str × Int)) : Go ExcludeList :=
  ts.foldlM (fun el t => el.AddExclude t.1 t.2.1 t.2.2) CreateExcludeList

/-- Boolean form of `ruleMatches`, through the closed forms of the two matchers. -/
def ruleMatchesB (env : Env) (dirent : Dirent) (e : Exclude) : Bool :=
  !(hasFlag e.Flags ExcFlagMustbedir && !dirent.IsDir) &&
  (if hasFlag e.Flags ExcFlagNodir then decide (basenameResult env dirent e = .ok true)
   else decide (pathnameResult env dirent e = .ok true))

/-- What one iteration of the scan makes of a rule: `.ok true` when the rule is returned,
`.ok false` when the scan goes on to the rule before it, and a panic otherwise. -/
def ruleOutcome (env : Env) (dirent : Dirent) (e : Exclude) : Go Bool :=
  if (hasFlag e.Flags ExcFlagMustbedir && !dirent.IsDir) = true then .ok false
  else if hasFlag e.Flags ExcFlagNodir = true then basenameResult env dirent e
  else if (len e.Base != 0 && !stringsHasSuffix e.Base (bytes "/")) = true then
    .error Panic.invalidBase
  else pathnameResult env dirent e

/-- The scan goes past a rule: the rule is skipped as a `ExcFlagMustbedir` rule facing a
non-directory, or it has `ExcFlagNodir` and `MatchBasename` returns false, or it lacks
`ExcFlagNodir`, its base is well formed and `MatchPathname` returns false. -/
def passesOver (env : Env) (dirent : Dirent) (e : Exclude) : Prop :=
  (hasFlag e.Flags ExcFlagMustbedir = true ∧ dirent.IsDir = false) ∨
  (hasFlag e.Flags ExcFlagNodir = true ∧ MatchBasename env dirent e = .ok false) ∨
  (hasFlag e.Flags ExcFlagNodir = false ∧ validBase e.Base ∧
    MatchPathname env dirent e = .ok false)

/-- The glob engine panics on a rule the scan reaches: the rule is not skipped, and either
it has `ExcFlagNodir` and `MatchBasename` panics in the engine, or it lacks `ExcFlagNodir`,
its base is well formed and `MatchPathname` panics in the engine. -/
def globFailsAt (env : Env) (dirent : Dirent) (e : Exclude) : Prop :=
  ¬ (hasFlag e.Flags ExcFlagMustbedir = true ∧ dirent.IsDir = false) ∧
  ((hasFlag e.Flags ExcFlagNodir = true ∧ MatchBasename env dirent e = .error Panic.wildmatch) ∨
   (hasFlag e.Flags ExcFlagNodir = false ∧ validBase e.Base ∧
    MatchPathname env dirent e = .error Panic.wildmatch))

/-- A rule rejects a candidate: it is a `ExcFlagMustbedir` rule facing a non-directory, or
its match (`MatchBasename` with `ExcFlagNodir`, `MatchPathname` without) returns false. -/
def ruleRejects (env : Env) (dirent : Dirent) (e : Exclude) : Prop :=
  (hasFlag e.Flags ExcFlagMustbedir = true ∧ dirent.IsDir = false) ∨
  (if hasFlag e.Flags ExcFlagNodir = true then MatchBasename env dirent e = .ok false
   else MatchPathname env dirent e = .ok false)

/-- The match of a rule returns: the rule is skipped as a `ExcFlagMustbedir` rule facing a
non-directory, or its match (`MatchBasename` with `ExcFlagNodir`, `MatchPathname` without)
returns a result, rather than panicking in the glob engine. -/
def ruleReturns (env : Env) (dirent : Dirent) (e : Exclude) : Prop :=
  (hasFlag e.Flags ExcFlagMustbedir = true ∧ dirent.IsDir = false) ∨
  ∃ matched, (if hasFlag e.Flags ExcFlagNodir = true then MatchBasename env dirent e
    else MatchPathname env dirent e) = .ok matched

/-- The glob engine answers every query made with `wildmatch.CaseFold`, the only ones the
package makes. -/
def globAnswers (env : Env) : Prop := ∀ pattern s, env.Wildmatch pattern true s ≠ none

/-- The flags `ParseExcludePattern` computes for a raw pattern (see `ParseExcludePattern_eq`). -/
def flagsOf (raw : Str) : ExcludeFlags :=
  mkFlags (stringsHasPrefix raw (bytes "!"))
    (stringsHasSuffix (dropBang raw) (bytes "/"))
    (stringsIndex (normalise raw) (bytes "/") == -1
      || stringsIndex (normalise raw) (bytes "/") == len (normalise raw) - 1)
    (stringsHasPrefix (normalise raw) (bytes "*") && NoWildcard (normalise raw).tail)

/-- The rule `CreateExclude` builds (see `CreateExclude_eq`). -/
def compiled (pattern base : Str) (srcpos : Int) : Exclude :=
  { Pattern := normalise pattern, Base := base, Flags := flagsOf pattern, SourcePos := srcpos }

/-! ## Concrete surroundings and inputs for the instances -/

/-- ASCII lower-casing of one byte. -/
def asciiLower (c : Byte) : Byte := if 65 ≤ c ∧ c ≤ 90 then c + 32 else c

/-- `strings.EqualFold` on ASCII text. -/
def asciiEqualFold (a b : Str) : Bool := a.map asciiLower == b.map asciiLower

/-- A small glob engine for concrete instances: the pattern `*` matches exactly the
non-empty texts without `'/'`; any other pattern matches only itself (up to ASCII case
when `caseFold` is set). -/
def starGlob (pattern : Str) (caseFold : Bool) (s : Str) : Bool :=
  if pattern = [star] then s != [] && !s.contains slash
  else if caseFold then asciiEqualFold pattern s else pattern == s

/-- Case-sensitive surroundings: `wildmatch.SystemCase == nil`. -/
def sensitiveEnv : Env :=
  { SystemCaseNil := true, EqualFold := asciiEqualFold,
    Wildmatch := fun pattern caseFold s => some (starGlob pattern caseFold s) }

/-- Case-insensitive surroundings: `wildmatch.SystemCase != nil`. -/
def foldingEnv : Env :=
  { SystemCaseNil := false, EqualFold := asciiEqualFold,
    Wildmatch := fun pattern caseFold s => some (starGlob pattern caseFold s) }

/-- Case-sensitive surroundings whose glob engine panics on the malformed pattern
`[[:foo:]]`, as `wildmatch.NewWildmatch` does, and answers like `starGlob` otherwise. -/
def panickingEnv : Env :=
  { SystemCaseNil := true, EqualFold := asciiEqualFold,
    Wildmatch := fun pattern caseFold s =>
      if pattern = bytes "[[:foo:]]" then none else some (starGlob pattern caseFold s) }

/-- A non-directory candidate (`ModeFile`). -/
def fileAt (path : String) : Dirent := { pathname := bytes path, basename := [], modeType := 0 }

/-- A directory candidate (`ModeDir`). -/
def dirAt (path : String) : Dirent :=
  { pathname := bytes path, basename := [], modeType := ModeDir }

/-- The rules of the test "whitelisting". -/
def whitelistRules : List (Str × Str × Int) :=
  [(bytes "/*", bytes "", 0), (bytes "!not-excluded-dir/", bytes "", 0),
   (bytes "!not-excluded-file", bytes "", 0)]

/-- A plain rule followed by a rule whose pattern is a malformed glob. -/
def malformedRules : List (Str × Str × Int) :=
  [(bytes "foo", bytes "", 0), (bytes "[[:foo:]]", bytes "", 1)]

/-- The rules of the test "must be dir when pattern ends with /", after a plain rule. -/
def mustBeDirRules : List Exclude :=
  [compiled (bytes "exclude-me") (bytes "") 0,
   compiled (bytes "!exclude-me/") (bytes "in/subfolder/") 1]

/-! ## The pathname match after the base check -/

/-- The part of `MatchPathname` that follows the base check: the literal run of `pattern`
is compared with the start of `name`, and what remains of the pattern goes to the glob
engine together with the whole `path`. -/
def prefixMatch (env : Env) (pattern name path : Str) : Go Bool :=
  if SimpleLength pattern > 0 then
    if SimpleLength pattern > len name then .ok false
    else if cmpN env pattern name (SimpleLength pattern).toNat = false then .ok false
    else if pattern.drop (SimpleLength pattern).toNat = [] ∧
        name.drop (SimpleLength pattern).toNat = [] then .ok true
    else globMatch env (pattern.drop (SimpleLength pattern).toNat) true path
  else globMatch env pattern true path

/-- The name `MatchPathname` derives from the candidate `base ++ n`: `n`, without its
leading `'/'` when the base is empty. -/
def relName (base n : Str) : Str :=
  if base = [] then (if n.head? = some slash then n.tail else n) else n

/-- Case-sensitive surroundings whose glob engine ignores the option `wildmatch.CaseFold`:
it answers every query as `starGlob` answers the case-sensitive one. -/
def strictEnv : Env :=
  { SystemCaseNil := true, EqualFold := asciiEqualFold,
    Wildmatch := fun pattern _ s => some (starGlob pattern false s) }

/-- The test `MatchBasename` makes, as a function of the basename it compares the rule
with. -/
def matchAgainst (env : Env) (exclude : Exclude) (basename : Str) : Go Bool :=
  let pattern := exclude.Pattern
  if SimpleLength pattern = len pattern then
    .ok (decide (len pattern = len basename) && cmpN env pattern basename basename.length)
  else if hasFlag exclude.Flags ExcFlagEndswith then
    .ok (decide (len pattern - 1 ≤ len basename) &&
      cmpN env pattern.tail (basename.drop (basename.length - (pattern.length - 1)))
        (pattern.length - 1))
  else globMatch env pattern true basename

/-- A rule on which the scan fails when it reaches it: the rule lacks `ExcFlagNodir`, is
not skipped by `ExcFlagMustbedir`, and its base is non-empty and does not end with `'/'`. -/
def failsAt (dirent : Dirent) (e : Exclude) : Prop :=
  hasFlag e.Flags ExcFlagNodir = false ∧
  ¬ (hasFlag e.Flags ExcFlagMustbedir = true ∧ dirent.IsDir = false) ∧
  e.Base ≠ [] ∧ e.Base.getLast? ≠ some slash

/-- Boolean form of `failsAt`, with the tests of the scan. -/
def failsAtB (dirent : Dirent) (e : Exclude) : Bool :=
  !(hasFlag e.Flags ExcFlagMustbedir && !dirent.IsDir) && !hasFlag e.Flags ExcFlagNodir &&
    (len e.Base != 0 && !stringsHasSuffix e.Base (bytes "/"))

/-- Two rules: a matching basename rule followed by a pathname rule with a malformed
base. -/
def failingRules : List Exclude :=
  [compiled (bytes "foo") (bytes "") 0, compiled (bytes "foo/bar") (bytes "bad") 1]

/-! # Theorems -/

/-! ## Library facts -/

theorem bytes_bang : bytes "!" = [bang] := by decide
theorem bytes_slash : bytes "/" = [slash] := by decide
theorem bytes_star : bytes "*" = [star] := by decide

theorem len_nonneg (s : Str) : 0 ≤ len s := by unfold len; omega

theorem hasPrefix_single (s : Str) (c : Byte) :
    stringsHasPrefix s [c] = true ↔ ∃ t, s = c :: t := by
  unfold stringsHasPrefix
  rw [List.isPrefixOf_iff_prefix]
  constructor
  · rintro ⟨t, h⟩; exact ⟨t, h.symm⟩
  · rintro ⟨t, h⟩; exact ⟨t, h.symm⟩

theorem hasSuffix_single (s : Str) (c : Byte) :
    stringsHasSuffix s [c] = true ↔ ∃ t, s = t ++ [c] := by
  unfold stringsHasSuffix
  rw [List.isSuffixOf_iff_suffix]
  constructor
  · rintro ⟨t, h⟩; exact ⟨t, h.symm⟩
  · rintro ⟨t, h⟩; exact ⟨t, h.symm⟩

theorem stringsIndexFunc_eq_neg_one (s : Str) (f : Byte → Bool) :
    stringsIndexFunc s f = -1 ↔ ∀ c ∈ s, f c = false := by
  unfold stringsIndexFunc
  split
  · rename_i h
    constructor
    · intro h2; omega
    · intro h2
      exfalso
      have := List.findIdx_lt_length.mp h
      obtain ⟨x, hx, hfx⟩ := this
      simp [h2 x hx] at hfx
  · rename_i h
    simp only [true_iff]
    intro c hc
    by_contra hf
    apply h
    exact List.findIdx_lt_length.mpr ⟨c, hc, by simpa using hf⟩

theorem stringsCompare_eq_zero (a b : Str) : stringsCompare a b = 0 ↔ a = b := by
  induction a generalizing b with
  | nil => cases b <;> simp [stringsCompare]
  | cons x xs ih =>
    cases b with
    | nil => simp [stringsCompare]
    | cons y ys =>
      simp only [stringsCompare]
      split
      · rename_i h; simp; intro h2; subst h2; exact absurd h (UInt8.lt_irrefl _)
      · split
        · rename_i h1 h; simp; intro h2; subst h2; exact absurd h (UInt8.lt_irrefl _)
        · rename_i h1 h2
          have : x = y := UInt8.le_antisymm (UInt8.not_lt.mp h2) (UInt8.not_lt.mp h1)
          simp [this, ih]

theorem sliceFrom_ok (s : Str) (lo : Int) (h0 : 0 ≤ lo) (h1 : lo ≤ len s) :
    sliceFrom s lo = .ok (s.drop lo.toNat) := by
  simp [sliceFrom, h0, h1]

theorem sliceTo_ok (s : Str) (hi : Int) (h0 : 0 ≤ hi) (h1 : hi ≤ len s) :
    sliceTo s hi = .ok (s.take hi.toNat) := by
  simp [sliceTo, h0, h1]

theorem sliceFrom_one_of_hasPrefix (s : Str) (c : Byte) (h : stringsHasPrefix s [c] = true) :
    sliceFrom s 1 = .ok s.tail := by
  obtain ⟨t, rfl⟩ := (hasPrefix_single _ _).mp h
  rw [sliceFrom_ok _ 1 (by omega) (by simp [len])]; rfl

theorem sliceTo_of_hasSuffix (s : Str) (c : Byte) (h : stringsHasSuffix s [c] = true) :
    sliceTo s (len s - 1) = .ok s.dropLast := by
  obtain ⟨t, rfl⟩ := (hasSuffix_single _ _).mp h
  rw [sliceTo_ok _ _ (by simp [len]) (by simp [len])]
  simp [len]

theorem getLast?_eq_some_iff_append (s : Str) (c : Byte) :
    s.getLast? = some c ↔ ∃ t, s = t ++ [c] := by
  constructor
  · intro h
    exact ⟨s.dropLast, by
      have := List.dropLast_append_getLast? c (by simpa using h)
      exact this.symm⟩
  · rintro ⟨t, rfl⟩; simp

theorem dropBang_eq (p : Str) :
    dropBang p = if stringsHasPrefix p (bytes "!") then p.tail else p := by
  rw [bytes_bang]
  cases p with
  | nil => simp [dropBang]
  | cons c t =>
    by_cases hc : c = bang
    · subst hc
      have : stringsHasPrefix (bang :: t) [bang] = true := (hasPrefix_single _ _).mpr ⟨t, rfl⟩
      simp [dropBang, this]
    · have : ¬ stringsHasPrefix (c :: t) [bang] = true := by
        intro h
        obtain ⟨t2, h2⟩ := (hasPrefix_single _ _).mp h
        exact hc (List.cons.inj h2).1
      simp [dropBang, this, hc]

theorem dropTrailingSlash_eq (q : Str) :
    dropTrailingSlash q = if stringsHasSuffix q (bytes "/") then q.dropLast else q := by
  rw [bytes_slash]
  unfold dropTrailingSlash
  by_cases h : q.getLast? = some slash
  · have := (hasSuffix_single _ _).mpr ((getLast?_eq_some_iff_append _ _).mp h)
    simp [h, this]
  · have : ¬ stringsHasSuffix q [slash] = true := fun h2 =>
      h ((getLast?_eq_some_iff_append _ _).mpr ((hasSuffix_single _ _).mp h2))
    simp [h, this]

/-- `ParseExcludePattern` never panics; its result in closed form. -/
theorem ParseExcludePattern_eq (raw : Str) :
    ParseExcludePattern raw = .ok (normalise raw,
      mkFlags (stringsHasPrefix raw (bytes "!"))
        (stringsHasSuffix (dropBang raw) (bytes "/"))
        (stringsIndex (normalise raw) (bytes "/") == -1
          || stringsIndex (normalise raw) (bytes "/") == len (normalise raw) - 1)
        (stringsHasPrefix (normalise raw) (bytes "*") && NoWildcard (normalise raw).tail)) := by
  unfold ParseExcludePattern normalise
  rw [dropTrailingSlash_eq, dropBang_eq]
  by_cases h1 : stringsHasPrefix raw (bytes "!") = true
  · have s1 := sliceFrom_one_of_hasPrefix raw bang (by rw [← bytes_bang]; exact h1)
    by_cases h2 : stringsHasSuffix raw.tail (bytes "/") = true
    · have s2 := sliceTo_of_hasSuffix raw.tail slash (by rw [← bytes_slash]; exact h2)
      by_cases h3 : stringsHasPrefix raw.tail.dropLast (bytes "*") = true
      · have s3 := sliceFrom_one_of_hasPrefix _ star (by rw [← bytes_star]; exact h3)
        simp [h1, h2, h3, s1, s2, s3, mkFlags, bind, Except.bind, pure, Except.pure]
      · simp [h1, h2, h3, s1, s2, mkFlags, bind, Except.bind, pure, Except.pure]
    · by_cases h3 : stringsHasPrefix raw.tail (bytes "*") = true
      · have s3 := sliceFrom_one_of_hasPrefix _ star (by rw [← bytes_star]; exact h3)
        simp [h1, h2, h3, s1, s3, mkFlags, bind, Except.bind, pure, Except.pure]
      · simp [h1, h2, h3, s1, mkFlags, bind, Except.bind, pure, Except.pure]
  · by_cases h2 : stringsHasSuffix raw (bytes "/") = true
    · have s2 := sliceTo_of_hasSuffix raw slash (by rw [← bytes_slash]; exact h2)
      by_cases h3 : stringsHasPrefix raw.dropLast (bytes "*") = true
      · have s3 := sliceFrom_one_of_hasPrefix _ star (by rw [← bytes_star]; exact h3)
        simp [h1, h2, h3, s2, s3, mkFlags, bind, Except.bind, pure, Except.pure]
      · simp [h1, h2, h3, s2, mkFlags, bind, Except.bind, pure, Except.pure]
    · by_cases h3 : stringsHasPrefix raw (bytes "*") = true
      · have s3 := sliceFrom_one_of_hasPrefix _ star (by rw [← bytes_star]; exact h3)
        simp [h1, h2, h3, s3, mkFlags, bind, Except.bind, pure, Except.pure]
      · simp [h1, h2, h3, mkFlags, bind, Except.bind, pure, Except.pure]

/-! ## The matchers in closed form -/

theorem hasFlag_mkFlags_negative (a b c d : Bool) :
    hasFlag (mkFlags a b c d) ExcFlagNegative = a := by
  cases a <;> cases b <;> cases c <;> cases d <;> decide

theorem hasFlag_mkFlags_mustbedir (a b c d : Bool) :
    hasFlag (mkFlags a b c d) ExcFlagMustbedir = b := by
  cases a <;> cases b <;> cases c <;> cases d <;> decide

theorem hasFlag_mkFlags_nodir (a b c d : Bool) :
    hasFlag (mkFlags a b c d) ExcFlagNodir = c := by
  cases a <;> cases b <;> cases c <;> cases d <;> decide

theorem hasFlag_mkFlags_endswith (a b c d : Bool) :
    hasFlag (mkFlags a b c d) ExcFlagEndswith = d := by
  cases a <;> cases b <;> cases c <;> cases d <;> decide

theorem stringsIndexFunc_nonneg_or (s : Str) (f : Byte → Bool) :
    stringsIndexFunc s f = -1 ∨ (0 ≤ stringsIndexFunc s f ∧ stringsIndexFunc s f < len s) := by
  unfold stringsIndexFunc len
  split
  · right; omega
  · left; rfl

theorem SimpleLength_bounds (p : Str) : 0 ≤ SimpleLength p ∧ SimpleLength p ≤ len p := by
  unfold SimpleLength
  have := stringsIndexFunc_nonneg_or p IsGlobSpecial
  have := len_nonneg p
  simp only [beq_iff_eq]
  split <;> omega

theorem len_drop_toNat (s : Str) (k : Int) (h0 : 0 ≤ k) (h1 : k ≤ len s) :
    len (s.drop k.toNat) = len s - k := by
  simp only [len, List.length_drop] at *; omega

theorem len_take_toNat (s : Str) (k : Int) (h0 : 0 ≤ k) (h1 : k ≤ len s) :
    len (s.take k.toNat) = k := by
  simp only [len, List.length_take] at *; omega

theorem fspathncmp_ok (env : Env) (a b : Str) (count : Int) (h0 : 0 ≤ count)
    (ha : count ≤ len a) (hb : count ≤ len b) :
    fspathncmp env a b count = .ok (cmpN env a b count.toNat) := by
  unfold fspathncmp cmpN
  rw [sliceTo_ok a count h0 ha, sliceTo_ok b count h0 hb]
  cases env.SystemCaseNil
  · simp [bind, Except.bind, pure, Except.pure]
  · simp only [bind, Except.bind, pure, Except.pure, if_true]
    congr 1
    by_cases h : a.take count.toNat = b.take count.toNat
    · simp [h, (stringsCompare_eq_zero _ _).mpr]
    · simp [h]
      intro h2; exact h ((stringsCompare_eq_zero _ _).mp h2)

/-- The outcome of `MatchBasename` in closed form: none of its slices panics. -/
theorem MatchBasename_eq (env : Env) (d : Dirent) (e : Exclude) :
    MatchBasename env d e = basenameResult env d e := by
  unfold MatchBasename basenameResult
  have hb := SimpleLength_bounds e.Pattern
  have hl := len_nonneg (pathBase d.pathname)
  simp only [beq_iff_eq]
  by_cases h1 : SimpleLength e.Pattern = len e.Pattern
  · simp only [h1, if_true]
    by_cases h2 : len e.Pattern = len (pathBase d.pathname)
    · rw [if_pos h2, fspathncmp_ok env _ _ _ hl (by omega) (by omega)]
      simp only [bind, Except.bind, pure, Except.pure]
      have : (len (pathBase d.pathname)).toNat = (pathBase d.pathname).length := by simp [len]
      rw [this]
      cases cmpN env e.Pattern (pathBase d.pathname) (pathBase d.pathname).length <;> simp [h2]
    · rw [if_neg h2]; simp [h2, pure, Except.pure]; rfl
  · rw [if_neg h1, if_neg h1]
    by_cases h2 : hasFlag e.Flags ExcFlagEndswith = true
    · rw [if_pos h2, if_pos h2]
      by_cases h3 : len e.Pattern - 1 ≤ len (pathBase d.pathname)
      · rw [if_pos h3, sliceFrom_ok _ 1 (by omega) (by omega),
          sliceFrom_ok _ _ (by omega) (by omega)]
        simp only [bind, Except.bind, pure, Except.pure]
        have d1 := len_drop_toNat e.Pattern 1 (by omega) (by omega)
        have d2 := len_drop_toNat (pathBase d.pathname)
          (len (pathBase d.pathname) - (len e.Pattern - 1)) (by omega) (by omega)
        rw [fspathncmp_ok env _ _ _ (by omega) (by omega) (by omega)]
        have e1 : (len (pathBase d.pathname) - (len e.Pattern - 1)).toNat
            = (pathBase d.pathname).length - (e.Pattern.length - 1) := by
          simp only [len] at *; omega
        have e2 : (len e.Pattern - 1).toNat = e.Pattern.length - 1 := by
          simp only [len] at *; omega
        have e3 : List.drop (1 : Int).toNat e.Pattern = e.Pattern.tail := by simp
        rw [e1, e2, e3]
        cases cmpN env e.Pattern.tail _ (e.Pattern.length - 1) <;> simp [h3]
      · rw [if_neg h3]; simp [h3, pure, Except.pure]; rfl
    · rw [if_neg h2, if_neg h2]

theorem byteAt_ok (s : Str) (i : Int) (h0 : 0 ≤ i) (h1 : i < len s) :
    ∃ b, s.get? i.toNat = some b ∧ byteAt s i = .ok b := by
  have hlt : i.toNat < s.length := by simp only [len] at h1; omega
  refine ⟨s.get ⟨i.toNat, hlt⟩, List.get?_eq_get hlt, ?_⟩
  unfold byteAt
  rw [if_pos h0, List.get?_eq_get hlt]

theorem strip_leading_slash (s : Str) :
    (if stringsHasPrefix s (bytes "/") = true then sliceFrom s 1 else (pure s : Go Str))
      = .ok (if stringsHasPrefix s (bytes "/") then s.tail else s) := by
  by_cases h : stringsHasPrefix s (bytes "/") = true
  · rw [if_pos h, if_pos h]
    exact sliceFrom_one_of_hasPrefix s slash (by rw [← bytes_slash]; exact h)
  · rw [if_neg h, if_neg h]; rfl

theorem len_eq_zero_iff (s : Str) : len s = 0 ↔ s = [] := by
  simp [len]

theorem baselen_bounds (base : Str) :
    0 ≤ (if stringsHasSuffix base (bytes "/") = true then len base - 1 else len base) ∧
    (if stringsHasSuffix base (bytes "/") = true then len base - 1 else len base) ≤ len base := by
  have := len_nonneg base
  split
  · rename_i h
    rw [bytes_slash] at h
    obtain ⟨t, ht⟩ := (hasSuffix_single _ _).mp h
    rw [ht]; simp [len]
  · omega

/-- The outcome of `MatchPathname` in closed form: none of its slices and indexings
panics. -/
theorem MatchPathname_eq (env : Env) (d : Dirent) (e : Exclude) :
    MatchPathname env d e = pathnameResult env d e := by
  unfold MatchPathname pathnameResult
  simp only [strip_leading_slash]
  have hbl := baselen_bounds e.Base
  generalize (if stringsHasPrefix e.Pattern (bytes "/") = true then e.Pattern.tail
    else e.Pattern) = pat
  generalize (if stringsHasSuffix e.Base (bytes "/") = true then len e.Base - 1
      else len e.Base) = baselen at hbl ⊢
  simp only [bind, Except.bind, pure, Except.pure]
  by_cases h1 : len d.pathname < baselen + 1
  · simp only [h1, if_true]
  · simp only [h1, if_false]
    rw [fspathncmp_ok env d.pathname e.Base baselen hbl.1 (by omega) hbl.2,
      sliceFrom_ok d.pathname baselen hbl.1 (by omega)]
    obtain ⟨c, hc1, hc2⟩ := byteAt_ok d.pathname baselen hbl.1 (by omega)
    rw [hc2, hc1]
    have hpl := SimpleLength_bounds pat
    rw [sliceFrom_ok pat _ hpl.1 hpl.2]
    simp only []
    generalize (if stringsHasPrefix (List.drop baselen.toNat d.pathname) (bytes "/") = true
      then (List.drop baselen.toNat d.pathname).tail
      else List.drop baselen.toNat d.pathname) = name
    have hnl := len_nonneg name
    have tail : (if SimpleLength pat > 0 then
          if SimpleLength pat > len name then (pure false : Go Bool)
          else do
            let same ← fspathncmp env pat name (SimpleLength pat)
            if !same then pure false
            else do
              let name1 ← sliceFrom name (SimpleLength pat)
              if len (List.drop (SimpleLength pat).toNat pat) == 0 && len name1 == 0
              then pure true
              else globMatch env (List.drop (SimpleLength pat).toNat pat) true d.pathname
        else globMatch env pat true d.pathname) =
      (if SimpleLength pat > 0 then
          if SimpleLength pat > len name then .ok false
          else if cmpN env pat name (SimpleLength pat).toNat = false then .ok false
          else if pat.drop (SimpleLength pat).toNat = [] ∧ name.drop (SimpleLength pat).toNat = []
            then .ok true
          else globMatch env (pat.drop (SimpleLength pat).toNat) true d.pathname
        else globMatch env pat true d.pathname) := by
      simp only [bind, Except.bind, pure, Except.pure]
      by_cases h2 : SimpleLength pat > 0
      · rw [if_pos h2, if_pos h2]
        by_cases h3 : SimpleLength pat > len name
        · rw [if_pos h3, if_pos h3]
        · rw [if_neg h3, if_neg h3, fspathncmp_ok env pat name _ hpl.1 hpl.2 (by omega),
            sliceFrom_ok name _ hpl.1 (by omega)]
          cases cmpN env pat name (SimpleLength pat).toNat
          · simp
          · by_cases h4 : pat.drop (SimpleLength pat).toNat = [] ∧
                name.drop (SimpleLength pat).toNat = []
            · simp [h4, len_eq_zero_iff]
            · simp only [len_eq_zero_iff, Bool.and_eq_true, beq_iff_eq, h4, if_false]; simp
      · rw [if_neg h2, if_neg h2]
    simp only [bind, Except.bind, pure, Except.pure] at tail
    by_cases hb0 : baselen = 0
    · cases hcm : cmpN env d.pathname e.Base baselen.toNat
      · simp [hb0, hcm]
      · simp only [hb0, bne_self_eq_false, Bool.false_eq_true, if_false, Bool.not_true]
        refine tail.trans ?_
        simp [hb0, hcm]
    · by_cases hcs : c = slash
      · cases hcm : cmpN env d.pathname e.Base baselen.toNat
        · simp [hb0, hcs]
        · have hb1 : (baselen != 0) = true := by simpa using hb0
          simp only [hb1, hcs, bne_self_eq_false, Bool.false_eq_true, if_false, if_true,
            Bool.not_true]
          refine tail.trans ?_
          simp [hb0, hcm]
      · simp [hb0, hcs]

/-! ## The reverse scan -/

theorem ruleMatches_iff (env : Env) (d : Dirent) (e : Exclude) :
    ruleMatches env d e ↔ ruleMatchesB env d e = true := by
  unfold ruleMatches ruleMatchesB
  rw [MatchBasename_eq, MatchPathname_eq]
  cases hasFlag e.Flags ExcFlagMustbedir <;> cases d.IsDir <;>
    cases hasFlag e.Flags ExcFlagNodir <;> simp

theorem validBase_iff (base : Str) :
    validBase base ↔ ¬ ((len base != 0 && !stringsHasSuffix base (bytes "/")) = true) := by
  unfold validBase
  rw [bytes_slash]
  have h1 : stringsHasSuffix base [slash] = true ↔ base.getLast? = some slash := by
    rw [hasSuffix_single, getLast?_eq_some_iff_append]
  have h2 := len_eq_zero_iff base
  by_cases hb : base = []
  · simp [hb, len]
  · by_cases hs : stringsHasSuffix base [slash] = true
    · simp [hs, h1.mp hs]
    · have : ¬ base.getLast? = some slash := fun h => hs (h1.mpr h)
      simp [hb, hs, this, h2]

theorem scanFrom_append (env : Env) (d : Dirent) (l r : List Exclude) (n : Nat)
    (hn : n ≤ l.length) : scanFrom env d (l ++ r) n = scanFrom env d l n := by
  induction n with
  | zero => rfl
  | succ i ih =>
    have hi : i < l.length := hn
    simp only [scanFrom]
    rw [List.get?_eq_getElem?, List.get?_eq_getElem?, List.getElem?_append_left hi,
      ih (Nat.le_of_lt hi)]

/-- One iteration of the scan, on the last rule of the list. -/
theorem scan_snoc (env : Env) (d : Dirent) (l : List Exclude) (e : Exclude) :
    LastExcludeMatchingFromList env d { Excludes := l ++ [e] } =
      match ruleOutcome env d e with
      | .ok true => .ok (some e)
      | .ok false => LastExcludeMatchingFromList env d { Excludes := l }
      | .error p => .error p := by
  unfold LastExcludeMatchingFromList
  simp only [List.length_append, List.length_singleton, scanFrom]
  have hget : (l ++ [e]).get? l.length = some e := by simp
  rw [hget]
  simp only [scanFrom_append env d l [e] l.length (Nat.le_refl _), MatchBasename_eq,
    MatchPathname_eq, bind, Except.bind, pure, Except.pure]
  unfold ruleOutcome
  cases (hasFlag e.Flags ExcFlagMustbedir && !d.IsDir) <;>
    cases hasFlag e.Flags ExcFlagNodir <;>
    cases (len e.Base != 0 && !stringsHasSuffix e.Base (bytes "/")) <;>
    simp only [Bool.false_eq_true, if_false, if_true] <;>
    first
      | rfl
      | (cases basenameResult env d e with
          | error p => rfl
          | ok v => cases v <;> rfl)
      | (cases pathnameResult env d e with
          | error p => rfl
          | ok v => cases v <;> rfl)

theorem scan_nil (env : Env) (d : Dirent) :
    LastExcludeMatchingFromList env d { Excludes := [] } = .ok none := rfl

/-- The scan in closed form, for every rule list: it stops at the last rule of the list on
which an iteration does not go on to the rule before, and returns that rule or panics. -/
theorem scan_eq_find (env : Env) (d : Dirent) (l : List Exclude) :
    LastExcludeMatchingFromList env d { Excludes := l } =
      match l.reverse.find? (fun e => decide (ruleOutcome env d e ≠ .ok false)) with
      | none => .ok none
      | some e =>
        match ruleOutcome env d e with
        | .ok _ => .ok (some e)
        | .error p => .error p := by
  induction l using List.reverseRecOn with
  | nil => rfl
  | append_singleton l e ih =>
    rw [scan_snoc, ih, List.reverse_append, List.reverse_singleton, List.singleton_append,
      List.find?_cons]
    cases h : ruleOutcome env d e with
    | error p => simp [h]
    | ok v => cases v <;> simp [h]

theorem IsExcludedFromList_eq (env : Env) (d : Dirent) (l : List Exclude) :
    IsExcludedFromList env d { Excludes := l } =
      match l.reverse.find? (fun e => decide (ruleOutcome env d e ≠ .ok false)) with
      | none => .ok ExclusionUndecided
      | some e =>
        match ruleOutcome env d e with
        | .ok _ => .ok (verdict e)
        | .error p => .error p := by
  unfold IsExcludedFromList
  rw [scan_eq_find env d l]
  simp only [bind, Except.bind, pure, Except.pure]
  cases l.reverse.find? (fun e => decide (ruleOutcome env d e ≠ .ok false)) with
  | none => rfl
  | some e =>
    simp only [verdict]
    cases ruleOutcome env d e with
    | error p => rfl
    | ok v => cases h : hasFlag e.Flags ExcFlagNegative <;> simp [h, NotExcluded, Excluded]

/-! ## Building rules and rule lists -/

theorem ParseExcludePattern_ok (raw : Str) :
    ParseExcludePattern raw = .ok (normalise raw, flagsOf raw) :=
  ParseExcludePattern_eq raw

theorem CreateExclude_eq (pattern base : Str) (srcpos : Int) :
    CreateExclude pattern base srcpos = .ok (compiled pattern base srcpos) := by
  unfold CreateExclude
  rw [ParseExcludePattern_ok]
  rfl

theorem AddExclude_eq (el : ExcludeList) (pattern base : Str) (srcpos : Int) :
    el.AddExclude pattern base srcpos =
      .ok { Excludes := el.Excludes ++ [compiled pattern base srcpos] } := by
  unfold ExcludeList.AddExclude
  rw [CreateExclude_eq]
  rfl

theorem foldlM_AddExclude (ts : List (Str × Str × Int)) (acc : List Exclude) :
    ts.foldlM (fun el t => ExcludeList.AddExclude el t.1 t.2.1 t.2.2)
        ({ Excludes := acc } : ExcludeList) =
      (.ok { Excludes := acc ++ ts.map (fun t => compiled t.1 t.2.1 t.2.2) } : Go ExcludeList) := by
  induction ts generalizing acc with
  | nil => simp [List.foldlM, pure, Except.pure]
  | cons t ts ih =>
    rw [List.foldlM_cons, AddExclude_eq]
    simp only [bind, Except.bind]
    rw [ih]
    simp

theorem addAll_eq (ts : List (Str × Str × Int)) :
    addAll ts = .ok { Excludes := ts.map (fun t => compiled t.1 t.2.1 t.2.2) } := by
  unfold addAll CreateExcludeList
  rw [foldlM_AddExclude]
  simp

theorem find_reverse_of_last {α : Type} (p : α → Bool) (l : List α) (i : Nat)
    (hi : i < l.length) (hp : p (l.get ⟨i, hi⟩) = true)
    (hlast : ∀ j (hj : j < l.length), i < j → p (l.get ⟨j, hj⟩) = false) :
    l.reverse.find? p = some (l.get ⟨i, hi⟩) := by
  induction l using List.reverseRecOn with
  | nil => simp at hi
  | append_singleton l x ih =>
    rw [List.reverse_append, List.reverse_singleton, List.singleton_append, List.find?_cons]
    by_cases hil : i < l.length
    · have hx : p x = false := by
        have := hlast l.length (by simp) hil
        simpa using this
      rw [hx]
      have h1 : (l ++ [x]).get ⟨i, hi⟩ = l.get ⟨i, hil⟩ := by
        simp [List.getElem_append_left hil]
      rw [h1] at hp ⊢
      apply ih hil hp
      intro j hj hij
      have := hlast j (by simp; omega) hij
      simpa [List.getElem_append_left hj] using this
    · have hie : i = l.length := by simp at hi; omega
      subst hie
      have h1 : (l ++ [x]).get ⟨l.length, hi⟩ = x := by simp
      rw [h1] at hp ⊢
      rw [hp]

/-! ## Searching a string -/

theorem stringsIndexFrom_single (c : Byte) (s : Str) (i : Int) :
    stringsIndexFrom [c] s i =
      if s.findIdx (fun x => x == c) < s.length then i + (s.findIdx (fun x => x == c) : Int)
      else -1 := by
  induction s generalizing i with
  | nil => simp [stringsIndexFrom]
  | cons a t ih =>
    simp only [stringsIndexFrom, List.isPrefixOf, List.findIdx_cons, List.length_cons, Bool.and_true]
    by_cases h : a = c
    · subst h; simp
    · have h2 : (c == a) = false := by simpa using fun h3 => h h3.symm
      have h3 : (a == c) = false := by simpa using h
      rw [h2, h3, ih]
      simp only [Bool.false_eq_true, if_false, cond_false]
      split
      · rename_i h4
        rw [if_pos (by omega)]; push_cast; omega
      · rename_i h4
        rw [if_neg (by omega)]

theorem stringsIndex_slash (s : Str) :
    stringsIndex s (bytes "/") = stringsIndexFunc s (fun x => x == slash) := by
  rw [bytes_slash]
  unfold stringsIndex stringsIndexFunc
  rw [stringsIndexFrom_single]
  simp

theorem stringsIndexFunc_eq_len_iff (s : Str) (f : Byte → Bool) (k : Nat) :
    stringsIndexFunc s f = (k : Int) ↔
      k < s.length ∧ s.findIdx f = k := by
  unfold stringsIndexFunc
  split
  · constructor
    · intro h; have : s.findIdx f = k := by omega
      exact ⟨this ▸ ‹_›, this⟩
    · rintro ⟨_, h⟩; rw [h]
  · constructor
    · intro h; omega
    · rintro ⟨h1, h2⟩; omega

theorem findIdx_append_cons (a b : Str) (c : Byte) (f : Byte → Bool)
    (ha : ∀ x ∈ a, f x = false) (hc : f c = true) : (a ++ c :: b).findIdx f = a.length := by
  induction a with
  | nil => simp [List.findIdx_cons, hc]
  | cons x t ih =>
    have hx : f x = false := ha x (by simp)
    simp only [List.cons_append, List.findIdx_cons, hx, cond_false, List.length_cons]
    rw [ih (fun y hy => ha y (by simp [hy]))]

theorem stringsIndexFunc_append_cons (a b : Str) (c : Byte) (f : Byte → Bool)
    (ha : ∀ x ∈ a, f x = false) (hc : f c = true) :
    stringsIndexFunc (a ++ c :: b) f = len a := by
  unfold len
  rw [stringsIndexFunc_eq_len_iff]
  exact ⟨by simp, findIdx_append_cons a b c f ha hc⟩

theorem stringsIndexFunc_of_none (s : Str) (f : Byte → Bool) (h : ∀ x ∈ s, f x = false) :
    stringsIndexFunc s f = -1 := (stringsIndexFunc_eq_neg_one s f).mpr h

theorem SimpleLength_of_none (s : Str) (h : ∀ x ∈ s, IsGlobSpecial x = false) :
    SimpleLength s = len s := by
  unfold SimpleLength
  rw [stringsIndexFunc_of_none s _ h]; rfl

theorem SimpleLength_append_cons (a b : Str) (c : Byte)
    (ha : ∀ x ∈ a, IsGlobSpecial x = false) (hc : IsGlobSpecial c = true) :
    SimpleLength (a ++ c :: b) = len a := by
  unfold SimpleLength
  rw [stringsIndexFunc_append_cons a b c _ ha hc]
  have := len_nonneg a
  simp only [beq_iff_eq]
  rw [if_neg (by omega)]

theorem NoWildcard_iff (s : Str) : NoWildcard s = true ↔ ∀ x ∈ s, IsGlobSpecial x = false := by
  unfold NoWildcard
  simp only [beq_iff_eq]
  exact stringsIndexFunc_eq_neg_one s _

/-! ## The flags of a compiled rule, and lists of one rule -/

theorem nodir_cond_iff (n : Str) :
    (stringsIndex n (bytes "/") == -1 || stringsIndex n (bytes "/") == len n - 1) = true ↔
      slash ∉ n.dropLast := by
  rw [stringsIndex_slash]
  simp only [Bool.or_eq_true, beq_iff_eq]
  induction n using List.reverseRecOn with
  | nil => simp [stringsIndexFunc, len]
  | append_singleton t c =>
    rw [List.dropLast_concat]
    have hlen : len (t ++ [c]) - 1 = (t.length : Int) := by simp [len]
    rw [hlen, stringsIndexFunc_eq_len_iff, stringsIndexFunc_eq_neg_one]
    constructor
    · rintro (h | ⟨_, h⟩)
      · intro hm
        have := h slash (by simp [hm])
        simp at this
      · intro hm
        have := @List.not_of_lt_findIdx _ (fun x => x == slash) (t ++ [c])
          (t.indexOf slash) (by rw [h]; exact List.indexOf_lt_length.mpr hm)
        have hlt : t.indexOf slash < t.length := List.indexOf_lt_length.mpr hm
        rw [List.getElem_append_left hlt] at this
        simp at this
    · intro hm
      by_cases hc : c = slash
      · right
        refine ⟨by simp, ?_⟩
        exact findIdx_append_cons t [] c _ (fun x hx => by
          have : x ≠ slash := fun h => hm (h ▸ hx)
          simpa using this) (by simpa using hc)
      · left
        intro x hx
        have : x ≠ slash := by
          rcases List.mem_append.mp hx with h | h
          · exact fun h2 => hm (h2 ▸ h)
          · simp at h; rw [h]; exact hc
        simpa using this

theorem hasFlag_flagsOf_negative (raw : Str) :
    hasFlag (flagsOf raw) ExcFlagNegative = stringsHasPrefix raw (bytes "!") :=
  hasFlag_mkFlags_negative _ _ _ _

theorem hasFlag_flagsOf_mustbedir (raw : Str) :
    hasFlag (flagsOf raw) ExcFlagMustbedir = stringsHasSuffix (dropBang raw) (bytes "/") :=
  hasFlag_mkFlags_mustbedir _ _ _ _

theorem hasFlag_flagsOf_nodir (raw : Str) :
    hasFlag (flagsOf raw) ExcFlagNodir = true ↔ slash ∉ (normalise raw).dropLast := by
  unfold flagsOf
  rw [hasFlag_mkFlags_nodir, nodir_cond_iff]

theorem hasFlag_flagsOf_endswith (raw : Str) :
    hasFlag (flagsOf raw) ExcFlagEndswith =
      (stringsHasPrefix (normalise raw) (bytes "*") && NoWildcard (normalise raw).tail) :=
  hasFlag_mkFlags_endswith _ _ _ _

/-- The decision on a list holding a single rule. -/
theorem single_rule (env : Env) (d : Dirent) (e : Exclude) :
    IsExcludedFromList env d { Excludes := [e] } =
      if (hasFlag e.Flags ExcFlagMustbedir && !d.IsDir) = true then .ok ExclusionUndecided
      else if hasFlag e.Flags ExcFlagNodir = true then
        (basenameResult env d e).map
          (fun m => if m = true then verdict e else ExclusionUndecided)
      else if (len e.Base != 0 && !stringsHasSuffix e.Base (bytes "/")) = true then
        .error Panic.invalidBase
      else
        (pathnameResult env d e).map
          (fun m => if m = true then verdict e else ExclusionUndecided) := by
  unfold IsExcludedFromList
  have h := scan_snoc env d [] e
  rw [List.nil_append, scan_nil] at h
  rw [h]
  unfold ruleOutcome verdict
  simp only [bind, Except.bind, pure, Except.pure]
  cases (hasFlag e.Flags ExcFlagMustbedir && !d.IsDir) <;>
    cases hasFlag e.Flags ExcFlagNodir <;>
    cases (len e.Base != 0 && !stringsHasSuffix e.Base (bytes "/")) <;>
    simp only [Bool.false_eq_true, if_false, if_true] <;>
    first
      | rfl
      | (cases basenameResult env d e with
          | error p => rfl
          | ok v =>
            cases v <;> cases hn : hasFlag e.Flags ExcFlagNegative <;>
              simp [hn, Except.map, NotExcluded, Excluded, ExclusionUndecided])
      | (cases pathnameResult env d e with
          | error p => rfl
          | ok v =>
            cases v <;> cases hn : hasFlag e.Flags ExcFlagNegative <;>
              simp [hn, Except.map, NotExcluded, Excluded, ExclusionUndecided])

theorem not_hasPrefix_of_head (s : Str) (c : Byte) (h : s.head? ≠ some c) :
    stringsHasPrefix s [c] = false := by
  cases hp : stringsHasPrefix s [c]
  · rfl
  · obtain ⟨t, rfl⟩ := (hasPrefix_single _ _).mp hp
    simp at h

theorem not_hasSuffix_of_getLast (s : Str) (c : Byte) (h : s.getLast? ≠ some c) :
    stringsHasSuffix s [c] = false := by
  cases hp : stringsHasSuffix s [c]
  · rfl
  · obtain ⟨t, rfl⟩ := (hasSuffix_single _ _).mp hp
    simp at h

theorem normalise_of_plain (raw : Str) (h1 : raw.head? ≠ some bang)
    (h2 : raw.getLast? ≠ some slash) : normalise raw = raw := by
  unfold normalise
  rw [dropBang_eq, bytes_bang, not_hasPrefix_of_head raw bang h1]
  simp only [Bool.false_eq_true, if_false]
  rw [dropTrailingSlash_eq, bytes_slash, not_hasSuffix_of_getLast raw slash h2]
  simp

theorem bytes_slash_star : bytes "/*" = [slash, star] := by decide

theorem head?_append_of_ne_nil (a b : Str) (h : a ≠ []) : (a ++ b).head? = a.head? := by
  cases a with
  | nil => exact absurd rfl h
  | cons x t => rfl

theorem head?_ne_of_not_mem (a : Str) (c : Byte) (h : c ∉ a) : a.head? ≠ some c := by
  cases a with
  | nil => simp
  | cons x t =>
    simp only [List.head?_cons, ne_eq, Option.some.injEq]
    intro hx; exact h (by simp [hx])

/-! ## The base check of the pathname match -/

theorem hasSuffix_slash_iff (s : Str) :
    stringsHasSuffix s (bytes "/") = true ↔ s.getLast? = some slash := by
  rw [bytes_slash, hasSuffix_single, getLast?_eq_some_iff_append]

theorem hasPrefix_bang_iff (s : Str) :
    stringsHasPrefix s (bytes "!") = true ↔ s.head? = some bang := by
  rw [bytes_bang, hasPrefix_single]
  constructor
  · rintro ⟨t, rfl⟩; rfl
  · intro h
    cases s with
    | nil => simp at h
    | cons c t => simp at h; exact ⟨t, by rw [h]⟩

theorem cmpN_sensitive (env : Env) (h : env.SystemCaseNil = true) (a b : Str) (n : Nat) :
    cmpN env a b n = decide (a.take n = b.take n) := by
  unfold cmpN; rw [h]; rfl

/-- A path that carries the text of `t` followed by `'/'` starts with `t ++ "/"`. -/
theorem isPrefix_of_take_get (t path : Str)
    (h1 : path.take t.length = (t ++ [slash]).take t.length)
    (h2 : path.get? t.length = some slash) : (t ++ [slash]) <+: path := by
  have ht : path.take t.length = t := by simpa using h1
  have hlt : t.length < path.length := by
    rw [List.get?_eq_getElem?] at h2
    exact (List.getElem?_eq_some_iff.mp h2).1
  have hd : path.drop t.length = slash :: path.drop (t.length + 1) := by
    rw [List.drop_eq_getElem_cons hlt]
    rw [List.get?_eq_getElem?, List.getElem?_eq_getElem hlt] at h2
    simp at h2
    rw [h2]
  refine ⟨path.drop (t.length + 1), ?_⟩
  calc t ++ [slash] ++ path.drop (t.length + 1)
      = path.take t.length ++ path.drop t.length := by rw [ht, hd]; simp
    _ = path := List.take_append_drop _ _

/-- `MatchPathname` rejects every candidate outside the base of the rule: one whose path is
shorter than the base, or, in case-sensitive mode and for a base other than `"/"`, does not
start with it. -/
theorem pathnameResult_outside_base (env : Env) (d : Dirent) (e : Exclude)
    (hbs : e.Base.getLast? = some slash)
    (hout : len d.pathname < len e.Base ∨
      (env.SystemCaseNil = true ∧ e.Base ≠ [slash] ∧ ¬ e.Base <+: d.pathname)) :
    pathnameResult env d e = .ok false := by
  obtain ⟨t, ht⟩ := (getLast?_eq_some_iff_append _ _).mp hbs
  have hsuf : stringsHasSuffix e.Base (bytes "/") = true := (hasSuffix_slash_iff _).mpr hbs
  unfold pathnameResult
  simp only [hsuf, if_true]
  have hlen : len e.Base - 1 = (t.length : Int) := by rw [ht]; simp [len]
  rw [hlen]
  by_cases h1 : len d.pathname < (t.length : Int) + 1
  · simp [h1]
  · rw [if_neg h1]
    rcases hout with h | ⟨hcs, hne, hnp⟩
    · exfalso; rw [ht] at h; simp [len] at h h1; omega
    · by_cases h2 : (t.length : Int) ≠ 0 ∧ d.pathname.get? (t.length : Int).toNat ≠ some slash
      · rw [if_pos h2]
      · rw [if_neg h2]
        by_cases h3 : cmpN env d.pathname e.Base (t.length : Int).toNat = false
        · rw [if_pos h3]
        · exfalso
          apply hnp
          rw [cmpN_sensitive env hcs] at h3
          simp only [Int.toNat_ofNat, decide_eq_false_iff_not, not_not] at h3 h2
          have h0 : t.length ≠ 0 := by
            intro h0
            apply hne
            rw [ht, List.length_eq_zero.mp h0]; rfl
          rw [ht] at h3 ⊢
          apply isPrefix_of_take_get t d.pathname h3
          by_contra hget
          exact h2 ⟨by exact_mod_cast h0, hget⟩

theorem hasFlag_false_of_not (f flag : ExcludeFlags) (h : ¬ hasFlag f flag = true) :
    hasFlag f flag = false := by
  cases hf : hasFlag f flag
  · rfl
  · exact absurd hf h

/-! ## Directory-only rules -/

/-- For a non-directory candidate the scan skips every `ExcFlagMustbedir` rule, so removing
these rules changes nothing (whatever the bases). -/
theorem scan_filter_mustbedir (env : Env) (d : Dirent) (hd : d.IsDir = false)
    (l : List Exclude) :
    LastExcludeMatchingFromList env d { Excludes := l } =
      LastExcludeMatchingFromList env d
        { Excludes := l.filter (fun e => !hasFlag e.Flags ExcFlagMustbedir) } := by
  induction l using List.reverseRecOn with
  | nil => rfl
  | append_singleton l e ih =>
    rw [List.filter_append, scan_snoc]
    cases hm : hasFlag e.Flags ExcFlagMustbedir
    · have : List.filter (fun e => !hasFlag e.Flags ExcFlagMustbedir) [e] = [e] := by
        simp [List.filter, hm]
      rw [this, scan_snoc, ih]
    · have : List.filter (fun e => !hasFlag e.Flags ExcFlagMustbedir) [e] = [] := by
        simp [List.filter, hm]
      have ho : ruleOutcome env d e = .ok false := by
        unfold ruleOutcome
        rw [hm, hd]
        rfl
      rw [this, List.append_nil, ho, ih]

theorem mustbedir_of_trailing_slash (raw : Str) (h : raw.getLast? = some slash) :
    hasFlag (flagsOf raw) ExcFlagMustbedir = true := by
  rw [hasFlag_flagsOf_mustbedir, hasSuffix_slash_iff]
  cases raw with
  | nil => simp at h
  | cons c t =>
    simp only [dropBang]
    split
    · rename_i hc
      subst hc
      cases t with
      | nil => exact absurd h (by decide)
      | cons c2 t2 => rw [List.getLast?_cons_cons] at h; exact h
    · exact h

/-! ## Patterns without negation or trailing slash -/

theorem mem_dropLast_of_mem_of_getLast_ne (s : Str) (c : Byte) (h : c ∈ s)
    (hl : s.getLast? ≠ some c) : c ∈ s.dropLast := by
  induction s using List.reverseRecOn with
  | nil => simp at h
  | append_singleton t x =>
    rw [List.dropLast_concat]
    rw [List.getLast?_concat] at hl
    rcases List.mem_append.mp h with h1 | h1
    · exact h1
    · simp at h1; subst h1; exact absurd rfl hl

theorem flagsOf_plain_pathname (raw : Str) (hs : slash ∈ raw) (h1 : raw.head? ≠ some bang)
    (h2 : raw.getLast? ≠ some slash) (h3 : raw.head? ≠ some star) : flagsOf raw = 0 := by
  have hnorm := normalise_of_plain raw h1 h2
  have hdb : dropBang raw = raw := by
    rw [dropBang_eq, bytes_bang, not_hasPrefix_of_head _ bang h1]; simp
  unfold flagsOf
  rw [hnorm, hdb, bytes_bang, not_hasPrefix_of_head _ bang h1, bytes_slash,
    not_hasSuffix_of_getLast _ slash h2, bytes_star, not_hasPrefix_of_head _ star h3]
  have hn : ([slash] : Str) = bytes "/" := bytes_slash.symm
  have : (stringsIndex raw [slash] == -1 || stringsIndex raw [slash] == len raw - 1) = false := by
    rw [hn]
    cases hc : (stringsIndex raw (bytes "/") == -1 || stringsIndex raw (bytes "/") == len raw - 1)
    · rfl
    · exact absurd (mem_dropLast_of_mem_of_getLast_ne raw slash hs h2)
        ((nodir_cond_iff raw).mp hc)
  rw [this]
  rfl

/-! ## Patterns that start with a star or end with a slash -/

theorem dropBang_star_cons (lit : Str) : dropBang (star :: lit) = star :: lit := by
  simp only [dropBang]
  rw [if_neg (by decide)]

theorem dropTrailingSlash_star_cons (lit : Str) :
    dropTrailingSlash (star :: lit) = star :: dropTrailingSlash lit := by
  unfold dropTrailingSlash
  cases lit with
  | nil => rw [if_neg (by decide)]; simp
  | cons c t =>
    rw [List.getLast?_cons_cons]
    split
    · rw [List.dropLast_cons₂]
    · rfl

theorem mem_dropTrailingSlash (s : Str) (c : Byte) (h : c ∈ dropTrailingSlash s) : c ∈ s := by
  unfold dropTrailingSlash at h
  split at h
  · exact List.mem_of_mem_dropLast h
  · exact h

theorem mem_dropBang (s : Str) (c : Byte) (h : c ∈ dropBang s) : c ∈ s := by
  cases s with
  | nil => exact h
  | cons x t =>
    simp only [dropBang] at h
    split at h
    · exact List.mem_cons_of_mem _ h
    · exact h

theorem normalise_star_cons (lit : Str) :
    normalise (star :: lit) = star :: dropTrailingSlash lit := by
  unfold normalise
  rw [dropBang_star_cons, dropTrailingSlash_star_cons]

theorem dropBang_concat_slash (q : Str) : dropBang (q ++ [slash]) = dropBang q ++ [slash] := by
  cases q with
  | nil => simp only [List.nil_append, dropBang]; rw [if_neg (by decide)]
  | cons c t =>
    simp only [List.cons_append, dropBang]
    split <;> rfl

theorem dropTrailingSlash_concat_slash (q : Str) : dropTrailingSlash (q ++ [slash]) = q := by
  unfold dropTrailingSlash
  rw [List.getLast?_concat, if_pos rfl, List.dropLast_concat]

/-! ## Basename rules -/

theorem pathBase_eq_lastSegment (path : Str) (h1 : path ≠ [])
    (h2 : path.getLast? ≠ some slash) : pathBase path = lastSegment path := by
  unfold pathBase lastSegment
  rw [if_neg h1]
  obtain ⟨c, t, hr⟩ : ∃ c t, path.reverse = c :: t := by
    cases hrev : path.reverse with
    | nil => exact absurd (List.reverse_eq_nil_iff.mp hrev) h1
    | cons c t => exact ⟨c, t, rfl⟩
  have hc : c ≠ slash := by
    intro hc
    apply h2
    rw [← List.head?_reverse, hr, hc]; rfl
  have hc1 : (c == slash) = false := by simpa using hc
  have hc2 : (c != slash) = true := by simpa using hc
  simp only [hr, List.dropWhile_cons, hc1, List.takeWhile_cons, hc2]
  simp only [Bool.false_eq_true, if_false, if_true, List.reverse_reverse, hr, List.takeWhile_cons, hc2]
  rw [if_neg (by simp)]

theorem getLast?_ne_of_not_mem (a : Str) (c : Byte) (h : c ∉ a) : a.getLast? ≠ some c := by
  intro hl
  obtain ⟨t, rfl⟩ := (getLast?_eq_some_iff_append _ _).mp hl
  exact h (by simp)

theorem dropBang_of_head (raw : Str) (h : raw.head? ≠ some bang) : dropBang raw = raw := by
  rw [dropBang_eq, bytes_bang, not_hasPrefix_of_head _ bang h]; simp

theorem verdict_of_not_negative (e : Exclude) (h : hasFlag e.Flags ExcFlagNegative = false) :
    verdict e = Excluded := by
  unfold verdict; rw [h]; rfl

/-- The flags of a pattern without `'/'` and without leading `'!'`: a basename rule,
neither directory-only nor negated. -/
theorem flags_of_basename_pattern (p : Str) (hps : slash ∉ p) (hpb : p.head? ≠ some bang) :
    normalise p = p ∧ hasFlag (flagsOf p) ExcFlagNodir = true ∧
      hasFlag (flagsOf p) ExcFlagMustbedir = false ∧
      hasFlag (flagsOf p) ExcFlagNegative = false := by
  have hlast := getLast?_ne_of_not_mem p slash hps
  have hnorm := normalise_of_plain p hpb hlast
  refine ⟨hnorm, ?_, ?_, ?_⟩
  · rw [hasFlag_flagsOf_nodir, hnorm]
    exact fun h => hps (List.mem_of_mem_dropLast h)
  · rw [hasFlag_flagsOf_mustbedir, dropBang_of_head p hpb, bytes_slash,
      not_hasSuffix_of_getLast _ slash hlast]
  · rw [hasFlag_flagsOf_negative, bytes_bang, not_hasPrefix_of_head _ bang hpb]

theorem literal_compare (p b : Str) :
    (decide (len p = len b) && decide (p.take b.length = b.take b.length)) = decide (b = p) := by
  by_cases h : b = p
  · subst h; simp
  · have : ¬ (len p = len b ∧ p.take b.length = b.take b.length) := by
      rintro ⟨h1, h2⟩
      apply h
      have hl : p.length = b.length := by simp only [len] at h1; omega
      rw [List.take_length] at h2
      rw [← hl, List.take_length] at h2
      exact h2.symm
    simp only [h, decide_False]
    cases h1 : decide (len p = len b)
    · rfl
    · cases h2 : decide (p.take b.length = b.take b.length)
      · rfl
      · exact absurd ⟨of_decide_eq_true h1, of_decide_eq_true h2⟩ this

theorem suffix_compare (s b : Str) :
    (decide (len (star :: s) - 1 ≤ len b) &&
      decide (s.take ((star :: s).length - 1) =
        (b.drop (b.length - ((star :: s).length - 1))).take ((star :: s).length - 1)))
      = decide (s <:+ b) := by
  have e1 : (star :: s).length - 1 = s.length := by simp
  rw [e1, List.take_length]
  by_cases h : s <:+ b
  · have hle : s.length ≤ b.length := h.length_le
    have hd := List.suffix_iff_eq_drop.mp h
    have : (b.drop (b.length - s.length)).take s.length = s := by
      rw [← hd, List.take_length]
    simp [h, this, len, hle]
  · simp only [h, decide_False]
    cases h1 : decide (len (star :: s) - 1 ≤ len b)
    · rfl
    · cases h2 : decide (s = (b.drop (b.length - s.length)).take s.length)
      · rfl
      · exfalso
        apply h
        have hle : s.length ≤ b.length := by
          have := of_decide_eq_true h1
          simp only [len, List.length_cons] at this; omega
        have h3 := of_decide_eq_true h2
        have hlen : (b.drop (b.length - s.length)).length = s.length := by
          rw [List.length_drop]; omega
        rw [List.take_of_length_le (Nat.le_of_eq hlen)] at h3
        rw [h3]
        exact List.drop_suffix _ _

/-! ## Candidates under the base -/

theorem hasPrefix_slash_iff (s : Str) :
    stringsHasPrefix s (bytes "/") = true ↔ s.head? = some slash := by
  rw [bytes_slash, hasPrefix_single]
  constructor
  · rintro ⟨t, rfl⟩; rfl
  · intro h
    cases s with
    | nil => simp at h
    | cons c t => simp at h; exact ⟨t, by rw [h]⟩

theorem strip_slash_eq (s : Str) :
    (if stringsHasPrefix s (bytes "/") = true then s.tail else s) =
      if s.head? = some slash then s.tail else s := by
  by_cases h : s.head? = some slash
  · rw [if_pos h, if_pos ((hasPrefix_slash_iff s).mpr h)]
  · rw [if_neg h, if_neg (fun h2 => h ((hasPrefix_slash_iff s).mp h2))]

theorem cmpN_append (env : Env) (b n : Str) (k : Nat) (hk : k ≤ b.length) :
    cmpN env (b ++ n) b k = cmpN env b b k := by
  unfold cmpN
  rw [List.take_append_of_le_length hk]

/-- The pathname match of a candidate `base ++ n` under a well-formed base: the base check
comes down to the comparison of the base with itself. -/
theorem pathnameResult_under_base (env : Env) (d : Dirent) (e : Exclude) (n : Str)
    (hb : validBase e.Base) (hd : d.pathname = e.Base ++ n) (hn : e.Base = [] → n ≠ []) :
    pathnameResult env d e =
      if cmpN env e.Base e.Base (e.Base.length - 1) = true then
        prefixMatch env
          (if e.Pattern.head? = some slash then e.Pattern.tail else e.Pattern)
          (relName e.Base n) d.pathname
      else .ok false := by
  unfold pathnameResult prefixMatch
  simp only [strip_slash_eq]
  generalize (if e.Pattern.head? = some slash then e.Pattern.tail else e.Pattern) = pat
  rw [hd]
  generalize e.Base = b at hb hn ⊢
  rcases hb with hb | hb
  · have hne := hn hb
    subst hb
    have hsuf : stringsHasSuffix ([] : Str) (bytes "/") = false := by decide
    have hl : ¬ len n < len ([] : Str) + 1 := by
      have : 0 < n.length := List.length_pos.mpr hne
      simp only [len, List.length_nil]; omega
    have hc : cmpN env n [] 0 = cmpN env [] [] 0 := cmpN_append env [] n 0 (Nat.le_refl _)
    simp only [hsuf, List.nil_append, relName, Bool.false_eq_true, if_false, hl, len,
      List.length_nil, Int.toNat_zero, List.drop_zero, if_true, Nat.cast_zero, ne_eq,
      not_true_eq_false, false_and, hc, Nat.zero_sub]
    cases cmpN env [] [] 0 <;> simp [hne]
  · obtain ⟨t, rfl⟩ := (getLast?_eq_some_iff_append _ _).mp hb
    have hsuf : stringsHasSuffix (t ++ [slash]) (bytes "/") = true :=
      (hasSuffix_slash_iff _).mpr hb
    have hlen : len (t ++ [slash]) - 1 = (t.length : Int) := by simp [len]
    have hl : ¬ len (t ++ [slash] ++ n) < (t.length : Int) + 1 := by
      simp only [len, List.length_append, List.length_singleton]; push_cast; omega
    have hget : (t ++ [slash] ++ n).get? t.length = some slash := by
      rw [List.append_assoc, List.get?_eq_getElem?, List.getElem?_append_right (Nat.le_refl _)]
      simp
    have hdrop : (t ++ [slash] ++ n).drop t.length = slash :: n := by
      rw [List.append_assoc, List.drop_left]; rfl
    have hc : cmpN env (t ++ [slash] ++ n) (t ++ [slash]) t.length =
        cmpN env (t ++ [slash]) (t ++ [slash]) t.length :=
      cmpN_append env _ n _ (by simp)
    have hne : t ++ [slash] ≠ [] := by simp
    simp only [hsuf, if_true, hlen, hl, if_false, Int.toNat_ofNat, hget, ne_eq,
      not_true_eq_false, and_false, hdrop, List.head?_cons, List.tail_cons, hc, relName, hne,
      List.length_append, List.length_singleton, Nat.add_sub_cancel]
    cases cmpN env (t ++ [slash]) (t ++ [slash]) t.length <;> simp

theorem cmpN_self (env : Env) (h : env.SystemCaseNil = true ∨ ∀ s, env.EqualFold s s = true)
    (a : Str) (k : Nat) : cmpN env a a k = true := by
  unfold cmpN
  cases hs : env.SystemCaseNil
  · rcases h with h | h
    · rw [hs] at h; exact absurd h (by decide)
    · simp [h]
  · simp

/-- The prefix comparison for a pattern without glob metacharacter. -/
theorem prefixMatch_literal (env : Env) (p name path : Str)
    (hg : ∀ c ∈ p, IsGlobSpecial c = false) (hp : p ≠ []) :
    prefixMatch env p name path =
      if (decide (p.length ≤ name.length) && cmpN env p name p.length) = true then
        if name.length ≤ p.length then .ok true else globMatch env [] true path
      else .ok false := by
  unfold prefixMatch
  rw [SimpleLength_of_none p hg]
  have hpos : len p > 0 := by
    have : 0 < p.length := List.length_pos.mpr hp
    simp only [len]; omega
  have hdrop : p.drop (len p).toNat = [] := by simp [len]
  have htn : (len p).toNat = p.length := by simp [len]
  rw [if_pos hpos, hdrop, htn]
  by_cases h1 : p.length ≤ name.length
  · have : ¬ len p > len name := by simp only [len]; omega
    rw [if_neg this]
    cases cmpN env p name p.length
    · simp
    · by_cases h2 : name.length ≤ p.length
      · simp [h1, h2]
      · simp [h1, h2]
  · have : len p > len name := by simp only [len]; omega
    rw [if_pos this]
    simp [h1]

theorem cmpN_literal_sensitive (env : Env) (hcs : env.SystemCaseNil = true) (p name : Str) :
    (decide (p.length ≤ name.length) && cmpN env p name p.length) = decide (p <+: name) := by
  rw [cmpN_sensitive env hcs, List.take_length]
  by_cases h : p <+: name
  · have hle := h.length_le
    have := List.prefix_iff_eq_take.mp h
    simp [h, hle, ← this]
  · simp only [h, decide_False]
    cases h1 : decide (p.length ≤ name.length)
    · rfl
    · cases h2 : decide (p = name.take p.length)
      · rfl
      · exfalso
        apply h
        rw [of_decide_eq_true h2]
        exact List.take_prefix _ _

theorem hasFlag_zero (flag : ExcludeFlags) : hasFlag 0 flag = false := by
  simp [hasFlag]

/-- A list of one pathname rule with a well-formed base decides by `pathnameResult`. -/
theorem single_pathname_rule (env : Env) (d : Dirent) (e : Exclude) (hf : e.Flags = 0)
    (hb : validBase e.Base) :
    IsExcludedFromList env d { Excludes := [e] } =
      (pathnameResult env d e).map
        (fun m => if m = true then Excluded else ExclusionUndecided) := by
  have hvalid := (validBase_iff e.Base).mp hb
  rw [single_rule, hf, hasFlag_zero, hasFlag_zero]
  simp only [Bool.false_and, Bool.false_eq_true, if_false]
  rw [if_neg hvalid]
  unfold verdict
  rw [hf, hasFlag_zero]
  rfl

theorem pathnameResult_empty_path (env : Env) (d : Dirent) (e : Exclude)
    (hd : d.pathname = []) : pathnameResult env d e = .ok false := by
  unfold pathnameResult
  have hbl := baselen_bounds e.Base
  simp only [hd]
  generalize (if stringsHasSuffix e.Base (bytes "/") = true then len e.Base - 1
    else len e.Base) = baselen at hbl ⊢
  have h0 : len ([] : Str) < baselen + 1 := by simp only [len, List.length_nil]; omega
  rw [if_pos h0]

theorem head?_ne_star_of_no_glob (p : Str) (hg : ∀ c ∈ p, IsGlobSpecial c = false) :
    p.head? ≠ some star := by
  cases p with
  | nil => simp
  | cons c t =>
    simp only [List.head?_cons, ne_eq, Option.some.injEq]
    intro hc
    have := hg c (by simp)
    rw [hc] at this
    exact absurd this (by decide)

theorem asciiEqualFold_refl (s : Str) : sensitiveEnv.EqualFold s s = true := by
  simp [sensitiveEnv, asciiEqualFold]

theorem getLast?_cons_of_ne_nil (c : Byte) (x : Str) (hx : x ≠ []) :
    (c :: x).getLast? = x.getLast? := by
  cases x with
  | nil => exact absurd rfl hx
  | cons a t => rw [List.getLast?_cons_cons]

/-! ## The basename of a path -/

theorem basenameResult_eq_matchAgainst (env : Env) (d : Dirent) (e : Exclude) :
    basenameResult env d e = matchAgainst env e (pathBase d.pathname) := rfl

theorem pathBase_concat_slash (p : Str) (hp : p ≠ []) :
    pathBase (p ++ [slash]) = pathBase p := by
  unfold pathBase
  rw [if_neg (by simp), if_neg hp]
  have : (p ++ [slash]).reverse.dropWhile (fun c => c == slash)
      = p.reverse.dropWhile (fun c => c == slash) := by
    rw [List.reverse_append, List.reverse_singleton, List.singleton_append,
      List.dropWhile_cons]
    simp
  simp only [this]

theorem pathBase_ne_nil (p : Str) : pathBase p ≠ [] := by
  unfold pathBase
  split
  · decide
  · simp only
    split
    · decide
    · assumption

/-! ## Empty patterns and the literal run of a pattern -/

theorem dropTrailingSlash_eq_nil_iff (s : Str) :
    dropTrailingSlash s = [] ↔ s = [] ∨ s = [slash] := by
  unfold dropTrailingSlash
  constructor
  · intro h
    split at h
    · rename_i hl
      obtain ⟨t, rfl⟩ := (getLast?_eq_some_iff_append _ _).mp hl
      rw [List.dropLast_concat] at h
      right; rw [h]; rfl
    · left; exact h
  · rintro (h | h)
    · rw [h]; rfl
    · rw [h]; rfl

theorem dropBang_eq_iff (raw s : Str) (hs : s.head? ≠ some bang) :
    dropBang raw = s ↔ raw = s ∨ raw = bang :: s := by
  cases raw with
  | nil =>
    simp only [dropBang]
    constructor
    · intro h; left; exact h
    · rintro (h | h)
      · exact h
      · exact absurd h (by simp)
  | cons c t =>
    simp only [dropBang]
    by_cases hc : c = bang
    · subst hc
      rw [if_pos rfl]
      constructor
      · intro h; right; rw [h]
      · rintro (h | h)
        · exfalso; apply hs; rw [← h]; rfl
        · exact (List.cons.inj h).2
    · rw [if_neg hc]
      constructor
      · intro h; left; exact h
      · rintro (h | h)
        · exact h
        · exact absurd (List.cons.inj h).1 hc

theorem normalise_eq_nil_iff (raw : Str) :
    normalise raw = [] ↔
      raw = bytes "" ∨ raw = bytes "!" ∨ raw = bytes "/" ∨ raw = bytes "!/" := by
  unfold normalise
  rw [dropTrailingSlash_eq_nil_iff, dropBang_eq_iff raw [] (by simp),
    dropBang_eq_iff raw [slash] (by decide)]
  have e1 : bytes "" = [] := rfl
  have e2 : bytes "!/" = [bang, slash] := by decide
  rw [e1, bytes_bang, bytes_slash, e2]
  tauto

theorem findIdx_eq_length_takeWhile (f : Byte → Bool) (s : Str) :
    s.findIdx f = (s.takeWhile (fun c => !f c)).length := by
  induction s with
  | nil => rfl
  | cons a t ih =>
    rw [List.findIdx_cons, List.takeWhile_cons]
    cases h : f a
    · simp [ih]
    · simp

theorem SimpleLength_eq_findIdx (p : Str) :
    SimpleLength p = (p.findIdx IsGlobSpecial : Int) := by
  unfold SimpleLength stringsIndexFunc
  have hle := @List.findIdx_le_length _ IsGlobSpecial p
  split
  · rename_i h
    simp only [beq_iff_eq]
    rw [if_neg (by omega)]
  · rename_i h
    simp only [beq_self_eq_true, if_true, len]
    have : p.findIdx IsGlobSpecial = p.length := by omega
    rw [this]

/-! ## The scan of an arbitrary rule list -/

theorem failsAt_iff (d : Dirent) (e : Exclude) : failsAt d e ↔ failsAtB d e = true := by
  unfold failsAt failsAtB
  have hv := validBase_iff e.Base
  unfold validBase at hv
  have hinv : (e.Base ≠ [] ∧ e.Base.getLast? ≠ some slash) ↔
      (len e.Base != 0 && !stringsHasSuffix e.Base (bytes "/")) = true := by
    constructor
    · intro h
      by_contra hc
      rcases hv.mpr hc with h1 | h1
      · exact h.1 h1
      · exact h.2 h1
    · intro h
      constructor
      · intro h1; exact hv.mp (Or.inl h1) h
      · intro h1; exact hv.mp (Or.inr h1) h
  cases hm : hasFlag e.Flags ExcFlagMustbedir <;> cases hdd : d.IsDir <;>
    cases hn : hasFlag e.Flags ExcFlagNodir <;> simp [hinv]

theorem globMatch_error (env : Env) (p : Str) (f : Bool) (t : Str) (q : Panic)
    (h : globMatch env p f t = .error q) : q = Panic.wildmatch := by
  unfold globMatch at h
  cases hw : env.Wildmatch p f t with
  | none => rw [hw] at h; exact (Except.error.inj h).symm
  | some b => rw [hw] at h; exact absurd h (by simp)

theorem globMatch_ok (env : Env) (p : Str) (f : Bool) (t : Str)
    (h : env.Wildmatch p f t ≠ none) : ∃ b, globMatch env p f t = .ok b := by
  unfold globMatch
  cases hw : env.Wildmatch p f t with
  | none => exact absurd hw h
  | some b => exact ⟨b, rfl⟩

theorem error_of_ite {c : Prop} [Decidable c] {a b : Go Bool} {q : Panic} {P : Prop}
    (ha : a = .error q → P) (hb : b = .error q → P) :
    (if c then a else b) = .error q → P := by
  split <;> assumption

theorem ok_of_ite {c : Prop} [Decidable c] {a b : Go Bool}
    (ha : ∃ v, a = .ok v) (hb : ∃ v, b = .ok v) : ∃ v, (if c then a else b) = .ok v := by
  split <;> assumption

/-- The glob engine is the only source of a panic in `MatchBasename`. -/
theorem basenameResult_error (env : Env) (d : Dirent) (e : Exclude) (q : Panic)
    (h : basenameResult env d e = .error q) : q = Panic.wildmatch := by
  revert h
  unfold basenameResult
  simp only
  repeat' first
    | exact globMatch_error _ _ _ _ _
    | exact fun h => by cases h
    | apply error_of_ite

/-- The glob engine is the only source of a panic in `MatchPathname`. -/
theorem pathnameResult_error (env : Env) (d : Dirent) (e : Exclude) (q : Panic)
    (h : pathnameResult env d e = .error q) : q = Panic.wildmatch := by
  revert h
  unfold pathnameResult
  simp only
  repeat' first
    | exact globMatch_error _ _ _ _ _
    | exact fun h => by cases h
    | apply error_of_ite

/-- With a glob engine that answers every query, `MatchBasename` returns. -/
theorem basenameResult_ok (env : Env) (hans : globAnswers env) (d : Dirent) (e : Exclude) :
    ∃ v, basenameResult env d e = .ok v := by
  unfold basenameResult
  simp only
  repeat' first
    | exact globMatch_ok env _ true _ (hans _ _)
    | exact ⟨_, rfl⟩
    | apply ok_of_ite

/-- With a glob engine that answers every query, `MatchPathname` returns. -/
theorem pathnameResult_ok (env : Env) (hans : globAnswers env) (d : Dirent) (e : Exclude) :
    ∃ v, pathnameResult env d e = .ok v := by
  unfold pathnameResult
  simp only
  repeat' first
    | exact globMatch_ok env _ true _ (hans _ _)
    | exact ⟨_, rfl⟩
    | apply ok_of_ite

theorem ruleOutcome_ok_false_iff (env : Env) (d : Dirent) (e : Exclude) :
    ruleOutcome env d e = .ok false ↔ passesOver env d e := by
  unfold ruleOutcome passesOver
  rw [MatchBasename_eq, MatchPathname_eq, validBase_iff]
  cases hm : hasFlag e.Flags ExcFlagMustbedir <;> cases hdd : d.IsDir <;>
    cases hn : hasFlag e.Flags ExcFlagNodir <;>
    cases hi : (len e.Base != 0 && !stringsHasSuffix e.Base (bytes "/")) <;> simp

theorem ruleOutcome_invalidBase_iff (env : Env) (d : Dirent) (e : Exclude) :
    ruleOutcome env d e = .error Panic.invalidBase ↔ failsAt d e := by
  rw [failsAt_iff]
  unfold ruleOutcome failsAtB
  have h1 : basenameResult env d e ≠ .error Panic.invalidBase :=
    fun h => absurd (basenameResult_error env d e _ h) (by decide)
  have h2 : pathnameResult env d e ≠ .error Panic.invalidBase :=
    fun h => absurd (pathnameResult_error env d e _ h) (by decide)
  cases hm : hasFlag e.Flags ExcFlagMustbedir <;> cases hdd : d.IsDir <;>
    cases hn : hasFlag e.Flags ExcFlagNodir <;>
    cases hi : (len e.Base != 0 && !stringsHasSuffix e.Base (bytes "/")) <;> simp [h1, h2]

theorem ruleOutcome_wildmatch_iff (env : Env) (d : Dirent) (e : Exclude) :
    ruleOutcome env d e = .error Panic.wildmatch ↔ globFailsAt env d e := by
  unfold ruleOutcome globFailsAt
  rw [MatchBasename_eq, MatchPathname_eq, validBase_iff]
  cases hm : hasFlag e.Flags ExcFlagMustbedir <;> cases hdd : d.IsDir <;>
    cases hn : hasFlag e.Flags ExcFlagNodir <;>
    cases hi : (len e.Base != 0 && !stringsHasSuffix e.Base (bytes "/")) <;> simp

theorem ruleOutcome_ok_true_iff (env : Env) (d : Dirent) (e : Exclude)
    (hb : hasFlag e.Flags ExcFlagNodir = false → validBase e.Base) :
    ruleOutcome env d e = .ok true ↔ ruleMatches env d e := by
  unfold ruleOutcome ruleMatches
  rw [MatchBasename_eq, MatchPathname_eq]
  rw [validBase_iff] at hb
  cases hm : hasFlag e.Flags ExcFlagMustbedir <;> cases hdd : d.IsDir <;>
    cases hn : hasFlag e.Flags ExcFlagNodir <;>
    cases hi : (len e.Base != 0 && !stringsHasSuffix e.Base (bytes "/")) <;>
    simp [hn, hi] at hb ⊢

theorem ruleRejects_iff (env : Env) (d : Dirent) (e : Exclude)
    (hb : hasFlag e.Flags ExcFlagNodir = false → validBase e.Base) :
    ruleRejects env d e ↔ ruleOutcome env d e = .ok false := by
  unfold ruleOutcome ruleRejects
  rw [MatchBasename_eq, MatchPathname_eq]
  rw [validBase_iff] at hb
  cases hm : hasFlag e.Flags ExcFlagMustbedir <;> cases hdd : d.IsDir <;>
    cases hn : hasFlag e.Flags ExcFlagNodir <;>
    cases hi : (len e.Base != 0 && !stringsHasSuffix e.Base (bytes "/")) <;>
    simp [hn, hi] at hb ⊢

theorem ruleOutcome_error (env : Env) (d : Dirent) (e : Exclude) (q : Panic)
    (h : ruleOutcome env d e = .error q) : q = Panic.invalidBase ∨ q = Panic.wildmatch := by
  unfold ruleOutcome at h
  split at h
  · exact absurd h (by simp)
  · split at h
    · exact Or.inr (basenameResult_error env d e q h)
    · split at h
      · exact Or.inl (Except.error.inj h).symm
      · exact Or.inr (pathnameResult_error env d e q h)

theorem find_reverse_some {α : Type} (q : α → Bool) (l : List α) (x : α)
    (h : l.reverse.find? q = some x) :
    ∃ i, ∃ hi : i < l.length, l.get ⟨i, hi⟩ = x ∧ q x = true ∧
      ∀ j (hj : j < l.length), i < j → q (l.get ⟨j, hj⟩) = false := by
  induction l using List.reverseRecOn with
  | nil => simp at h
  | append_singleton l a ih =>
    rw [List.reverse_append, List.reverse_singleton, List.singleton_append,
      List.find?_cons] at h
    cases hq : q a
    · rw [hq] at h
      obtain ⟨i, hi, h1, h2, h3⟩ := ih h
      refine ⟨i, by simp; omega, ?_, h2, ?_⟩
      · simpa [List.getElem_append_left hi] using h1
      · intro j hj hij
        by_cases hjl : j < l.length
        · have := h3 j hjl hij
          simpa [List.getElem_append_left hjl] using this
        · have hje : j = l.length := by simp at hj; omega
          subst hje
          simpa using hq
    · rw [hq] at h
      have hax : a = x := by simpa using h
      subst hax
      refine ⟨l.length, by simp, by simp, hq, ?_⟩
      intro j hj hij
      simp at hj; omega

/-- The scan panics with `q` exactly when an iteration panics with `q` on some rule and
goes past every rule after it in the list. -/
theorem IsExcludedFromList_error_iff (env : Env) (d : Dirent) (l : List Exclude) (q : Panic) :
    IsExcludedFromList env d { Excludes := l } = .error q ↔
      ∃ i, ∃ hi : i < l.length, ruleOutcome env d (l.get ⟨i, hi⟩) = .error q ∧
        ∀ j (hj : j < l.length), i < j → ruleOutcome env d (l.get ⟨j, hj⟩) = .ok false := by
  rw [IsExcludedFromList_eq]
  constructor
  · intro h
    cases hf : l.reverse.find? (fun e => decide (ruleOutcome env d e ≠ .ok false)) with
    | none => rw [hf] at h; exact absurd h (by simp)
    | some x =>
      rw [hf] at h
      simp only at h
      obtain ⟨i, hi, h1, _, h3⟩ := find_reverse_some _ l x hf
      refine ⟨i, hi, ?_, ?_⟩
      · rw [h1]
        cases ho : ruleOutcome env d x with
        | ok v => rw [ho] at h; exact absurd h (by simp)
        | error p => rw [ho] at h; simp only at h; rw [Except.error.inj h]
      · intro j hj hij
        have := h3 j hj hij
        simpa using this
  · rintro ⟨i, hi, herr, hlast⟩
    rw [find_reverse_of_last _ l i hi
      (by show decide (ruleOutcome env d (l.get ⟨i, hi⟩) ≠ .ok false) = true
          rw [herr]; simp)
      (fun j hj hij => by
        show decide (ruleOutcome env d (l.get ⟨j, hj⟩) ≠ .ok false) = false
        rw [hlast j hj hij]; simp)]
    simp only [herr]

/-- The scan leaves the candidate undecided exactly when it goes past every rule. -/
theorem IsExcludedFromList_undecided_iff (env : Env) (d : Dirent) (l : List Exclude) :
    IsExcludedFromList env d { Excludes := l } = .ok ExclusionUndecided ↔
      ∀ e ∈ l, ruleOutcome env d e = .ok false := by
  rw [IsExcludedFromList_eq]
  constructor
  · intro h e he
    cases hf : l.reverse.find? (fun e => decide (ruleOutcome env d e ≠ .ok false)) with
    | none =>
      have := List.find?_eq_none.mp hf e (by simpa using he)
      simpa using this
    | some x =>
      exfalso
      rw [hf] at h
      simp only at h
      cases ho : ruleOutcome env d x with
      | error p => rw [ho] at h; exact absurd h (by simp)
      | ok v =>
        rw [ho] at h
        simp only [verdict, NotExcluded, Excluded, ExclusionUndecided, Except.ok.injEq] at h
        split at h <;> exact absurd h (by decide)
  · intro h
    have : l.reverse.find? (fun e => decide (ruleOutcome env d e ≠ .ok false)) = none := by
      apply List.find?_eq_none.mpr
      intro e he
      simp [h e (by simpa using he)]
    rw [this]

/-- The scan returns the verdict of a rule that matches when it goes past every rule after
it in the list. -/
theorem IsExcludedFromList_of_last (env : Env) (d : Dirent) (l : List Exclude) (i : Nat)
    (hi : i < l.length) (hm : ruleOutcome env d (l.get ⟨i, hi⟩) = .ok true)
    (hlast : ∀ j (hj : j < l.length), i < j → ruleOutcome env d (l.get ⟨j, hj⟩) = .ok false) :
    IsExcludedFromList env d { Excludes := l } = .ok (verdict (l.get ⟨i, hi⟩)) := by
  rw [IsExcludedFromList_eq, find_reverse_of_last _ l i hi
    (by show decide (ruleOutcome env d (l.get ⟨i, hi⟩) ≠ .ok false) = true
        rw [hm]; simp)
    (fun j hj hij => by
      show decide (ruleOutcome env d (l.get ⟨j, hj⟩) ≠ .ok false) = false
      rw [hlast j hj hij]; simp)]
  simp only [hm]

theorem pathnameResult_of_base_mismatch (env : Env) (d : Dirent) (e : Exclude) (dir : Str)
    (hbase : e.Base = dir ++ bytes "/")
    (hcmp : cmpN env d.pathname dir dir.length = false) :
    pathnameResult env d e = .ok false := by
  rw [bytes_slash] at hbase
  have hsuf : stringsHasSuffix e.Base (bytes "/") = true := by
    rw [hasSuffix_slash_iff, hbase]; simp
  have hlen : len e.Base - 1 = (dir.length : Int) := by rw [hbase]; simp [len]
  have hc2 : cmpN env d.pathname e.Base dir.length = false := by
    unfold cmpN at hcmp ⊢
    rw [hbase, List.take_left]
    rw [List.take_length] at hcmp
    exact hcmp
  unfold pathnameResult
  simp only [hsuf, if_true, hlen, Int.toNat_ofNat, hc2]
  split
  · rfl
  · split <;> rfl

/-- The scan returns a decision when every rule that lacks `ExcFlagNodir` has a well-formed
base and the match of every rule returns. -/
theorem IsExcludedFromList_returns (env : Env) (d : Dirent) (l : List Exclude)
    (hb : ∀ e ∈ l, hasFlag e.Flags ExcFlagNodir = false → validBase e.Base)
    (hr : ∀ e ∈ l, ruleReturns env d e) :
    ∃ r, IsExcludedFromList env d { Excludes := l } = .ok r := by
  cases h : IsExcludedFromList env d { Excludes := l } with
  | ok r => exact ⟨r, rfl⟩
  | error q =>
    exfalso
    obtain ⟨i, hi, herr, _⟩ := (IsExcludedFromList_error_iff env d l q).mp h
    have hmem : l.get ⟨i, hi⟩ ∈ l := List.get_mem _ _ _
    rcases ruleOutcome_error env d _ q herr with hq | hq
    · rw [hq] at herr
      obtain ⟨hn, _, h3, h4⟩ := (ruleOutcome_invalidBase_iff env d _).mp herr
      rcases hb _ hmem hn with hv | hv
      · exact h3 hv
      · exact h4 hv
    · rw [hq] at herr
      obtain ⟨hskip, hglob⟩ := (ruleOutcome_wildmatch_iff env d _).mp herr
      rcases hr _ hmem with hs | ⟨v, hv⟩
      · exact hskip hs
      · rcases hglob with ⟨hn, hg⟩ | ⟨hn, _, hg⟩
        · rw [if_pos hn, hg] at hv; exact absurd hv (by simp)
        · rw [if_neg (by rw [hn]; decide), hg] at hv; exact absurd hv (by simp)

/-- For a non-directory candidate the scan never returns a `ExcFlagMustbedir` rule. -/
theorem scan_result_not_mustbedir (env : Env) (d : Dirent) (hd : d.IsDir = false)
    (l : List Exclude) (e : Exclude)
    (h : LastExcludeMatchingFromList env d { Excludes := l } = .ok (some e)) :
    hasFlag e.Flags ExcFlagMustbedir = false := by
  rw [scan_eq_find] at h
  cases hf : l.reverse.find? (fun e => decide (ruleOutcome env d e ≠ .ok false)) with
  | none => rw [hf] at h; exact absurd h (by simp)
  | some x =>
    rw [hf] at h
    simp only at h
    have hx := List.find?_some hf
    cases ho : ruleOutcome env d x with
    | error p => rw [ho] at h; exact absurd h (by simp)
    | ok v =>
      rw [ho] at h
      simp only [Except.ok.injEq, Option.some.injEq] at h
      subst h
      cases hm : hasFlag x.Flags ExcFlagMustbedir
      · rfl
      · exfalso
        have : ruleOutcome env d x = .ok false := by
          unfold ruleOutcome
          rw [hm, hd]
          rfl
        rw [this] at hx
        simp at hx

/-- A rule the scan goes past rejects the candidate. -/
theorem rejects_of_passesOver (env : Env) (d : Dirent) (e : Exclude)
    (h : passesOver env d e) : ruleRejects env d e := by
  unfold passesOver at h
  unfold ruleRejects
  rcases h with h | ⟨hn, h⟩ | ⟨hn, _, h⟩
  · exact Or.inl h
  · right; rw [if_pos hn]; exact h
  · right; rw [if_neg (by rw [hn]; decide)]; exact h

/-- On a rule that rejects the candidate the scan goes on, unless the assertion on the base
fails. -/
theorem ruleOutcome_of_rejects (env : Env) (d : Dirent) (e : Exclude)
    (h : ruleRejects env d e) :
    ruleOutcome env d e = .ok false ∨ ruleOutcome env d e = .error Panic.invalidBase := by
  unfold ruleRejects at h
  rw [MatchBasename_eq, MatchPathname_eq] at h
  unfold ruleOutcome
  cases hm : hasFlag e.Flags ExcFlagMustbedir <;> cases hdd : d.IsDir <;>
    cases hn : hasFlag e.Flags ExcFlagNodir <;>
    cases hi : (len e.Base != 0 && !stringsHasSuffix e.Base (bytes "/")) <;>
    simp [hm, hdd, hn] at h ⊢ <;> exact Or.inl h

/-- A rule whose match returns does not panic in the glob engine. -/
theorem not_globFailsAt_of_returns (env : Env) (d : Dirent) (e : Exclude)
    (hr : ruleReturns env d e) : ¬ globFailsAt env d e := by
  rintro ⟨hskip, hglob⟩
  rcases hr with hs | ⟨v, hv⟩
  · exact hskip hs
  · rcases hglob with ⟨hn, hg⟩ | ⟨hn, _, hg⟩
    · rw [if_pos hn, hg] at hv; exact absurd hv (by simp)
    · rw [if_neg (by rw [hn]; decide), hg] at hv; exact absurd hv (by simp)

/-- The scan fails on the assertion exactly when some rule has a malformed base that the
scan tests and every rule after it in the list rejects the candidate. -/
theorem invalidBase_iff (env : Env) (d : Dirent) (l : List Exclude) :
    IsExcludedFromList env d { Excludes := l } = .error Panic.invalidBase ↔
      ∃ i, ∃ hi : i < l.length, failsAt d (l.get ⟨i, hi⟩) ∧
        ∀ j (hj : j < l.length), i < j → ruleRejects env d (l.get ⟨j, hj⟩) := by
  rw [IsExcludedFromList_error_iff]
  constructor
  · rintro ⟨i, hi, herr, hlast⟩
    exact ⟨i, hi, (ruleOutcome_invalidBase_iff env d _).mp herr, fun j hj hij =>
      rejects_of_passesOver env d _ ((ruleOutcome_ok_false_iff env d _).mp (hlast j hj hij))⟩
  · rintro ⟨i, hi, hfail, hrej⟩
    have herr := (ruleOutcome_invalidBase_iff env d _).mpr hfail
    cases hf : l.reverse.find? (fun e => decide (ruleOutcome env d e ≠ .ok false)) with
    | none =>
      exfalso
      have := List.find?_eq_none.mp hf (l.get ⟨i, hi⟩) (by simp [List.getElem_mem])
      rw [herr] at this
      simp at this
    | some x =>
      obtain ⟨k, hk, h1, h2, h3⟩ := find_reverse_some _ l x hf
      have hlast : ∀ j (hj : j < l.length), k < j →
          ruleOutcome env d (l.get ⟨j, hj⟩) = .ok false := by
        intro j hj hkj
        have := h3 j hj hkj
        simpa using this
      refine ⟨k, hk, ?_, hlast⟩
      rcases Nat.lt_trichotomy i k with hik | hik | hik
      · rcases ruleOutcome_of_rejects env d _ (hrej k hk hik) with ho | ho
        · exfalso
          rw [h1] at ho
          rw [ho] at h2
          simp at h2
        · exact ho
      · subst hik
        exact herr
      · exfalso
        have := hlast i hi hik
        rw [herr] at this
        exact absurd this (by simp)

/-- A rule that rejects a candidate does not match it. -/
theorem not_matches_of_rejects (env : Env) (d : Dirent) (e : Exclude)
    (h : ruleRejects env d e) : ¬ ruleMatches env d e := by
  unfold ruleRejects at h
  unfold ruleMatches
  rintro ⟨hskip, hm⟩
  rcases h with h | h
  · exact hskip h
  · by_cases hn : hasFlag e.Flags ExcFlagNodir = true
    · rw [if_pos hn] at h hm
      rw [h] at hm; exact absurd hm (by simp)
    · rw [if_neg hn] at h hm
      rw [h] at hm; exact absurd hm (by simp)

/-- A rule whose match returns rejects the candidates it does not match. -/
theorem rejects_of_not_matches (env : Env) (d : Dirent) (e : Exclude)
    (hr : ruleReturns env d e) (h : ¬ ruleMatches env d e) : ruleRejects env d e := by
  unfold ruleReturns at hr
  unfold ruleMatches at h
  unfold ruleRejects
  rcases hr with hr | ⟨b, hb⟩
  · exact Or.inl hr
  · by_cases hskip : hasFlag e.Flags ExcFlagMustbedir = true ∧ d.IsDir = false
    · exact Or.inl hskip
    · right
      by_cases hn : hasFlag e.Flags ExcFlagNodir = true
      · rw [if_pos hn] at hb h ⊢
        cases b
        · exact hb
        · exact absurd ⟨hskip, hb⟩ h
      · rw [if_neg hn] at hb h ⊢
        cases b
        · exact hb
        · exact absurd ⟨hskip, hb⟩ h

/-- With a glob engine that answers every query, the match of every rule returns. -/
theorem ruleReturns_of_globAnswers (env : Env) (hans : globAnswers env) (d : Dirent)
    (e : Exclude) : ruleReturns env d e := by
  right
  split
  · rw [MatchBasename_eq]; exact basenameResult_ok env hans d e
  · rw [MatchPathname_eq]; exact pathnameResult_ok env hans d e

/-! # The claims -/

/-! ## C1: last match wins -/

/-- C1 fails as stated: the glob engine can panic. With an engine that panics on the
malformed pattern `[[:foo:]]`, as `wildmatch.NewWildmatch` does, and the rules `foo` and
`[[:foo:]]` added in this order with empty bases, the file `foo` is matched by the first rule
and by no later rule, yet `IsExcludedFromList` does not return `Excluded`: the scan starts
with the second rule, and the glob call of `MatchBasename` panics. -/
theorem last_match_wins_counterexample :
    (∀ t ∈ malformedRules, validBase t.2.1) ∧
    addAll malformedRules = .ok { Excludes :=
      [compiled (bytes "foo") (bytes "") 0, compiled (bytes "[[:foo:]]") (bytes "") 1] } ∧
    ruleMatches panickingEnv (fileAt "foo") (compiled (bytes "foo") (bytes "") 0) ∧
    ¬ ruleMatches panickingEnv (fileAt "foo") (compiled (bytes "[[:foo:]]") (bytes "") 1) ∧
    IsExcludedFromList panickingEnv (fileAt "foo") { Excludes :=
      [compiled (bytes "foo") (bytes "") 0, compiled (bytes "[[:foo:]]") (bytes "") 1] }
      = .error Panic.wildmatch := by
  refine ⟨by decide, addAll_eq _, ?_, ?_, by decide⟩
  · rw [ruleMatches_iff]; decide
  · rw [ruleMatches_iff]; decide

/-- C1, amended. Last-match-wins, as far as the glob engine does not panic: for rules added
in order with `AddExclude` to an empty list, all with a base that is empty or ends with
`'/'`, `IsExcludedFromList` returns `ExclusionUndecided` iff every added rule rejects the
candidate (it is a `ExcFlagMustbedir` rule facing a non-directory, or its match returns
false); and when a rule matches and every rule added after it rejects the candidate, it
returns the verdict of that rule (`NotExcluded` if it is negated, `Excluded` if not),
whatever earlier rules do. When the match of every rule returns, to reject is not to match,
and the result is `ExclusionUndecided` iff no added rule matches, and otherwise the verdict
of the last-added rule that matches. -/
theorem last_match_wins (env : Env) (d : Dirent) (ts : List (Str × Str × Int))
    (hbase : ∀ t ∈ ts, validBase t.2.1) :
    ∃ el, addAll ts = .ok el ∧
      List.Forall₂ (fun t e => CreateExclude t.1 t.2.1 t.2.2 = .ok e) ts el.Excludes ∧
      (IsExcludedFromList env d el = .ok ExclusionUndecided ↔
        ∀ e ∈ el.Excludes, ruleRejects env d e) ∧
      (∀ i (hi : i < el.Excludes.length),
        ruleMatches env d (el.Excludes.get ⟨i, hi⟩) →
        (∀ j (hj : j < el.Excludes.length), i < j →
          ruleRejects env d (el.Excludes.get ⟨j, hj⟩)) →
        IsExcludedFromList env d el =
          .ok (if hasFlag (el.Excludes.get ⟨i, hi⟩).Flags ExcFlagNegative = true
            then NotExcluded else Excluded)) ∧
      ((∀ e ∈ el.Excludes, ruleReturns env d e) →
        (IsExcludedFromList env d el = .ok ExclusionUndecided ↔
          ∀ e ∈ el.Excludes, ¬ ruleMatches env d e) ∧
        (∀ i (hi : i < el.Excludes.length),
          ruleMatches env d (el.Excludes.get ⟨i, hi⟩) →
          (∀ j (hj : j < el.Excludes.length), i < j →
            ¬ ruleMatches env d (el.Excludes.get ⟨j, hj⟩)) →
          IsExcludedFromList env d el =
            .ok (if hasFlag (el.Excludes.get ⟨i, hi⟩).Flags ExcFlagNegative = true
              then NotExcluded else Excluded))) := by
  have hb : ∀ e ∈ ts.map (fun t => compiled t.1 t.2.1 t.2.2),
      hasFlag e.Flags ExcFlagNodir = false → validBase e.Base := by
    intro e he _
    obtain ⟨t, ht, rfl⟩ := List.mem_map.mp he
    exact hbase t ht
  have hund : IsExcludedFromList env d { Excludes := ts.map (fun t => compiled t.1 t.2.1 t.2.2) }
      = .ok ExclusionUndecided ↔
      ∀ e ∈ ts.map (fun t => compiled t.1 t.2.1 t.2.2), ruleRejects env d e := by
    rw [IsExcludedFromList_undecided_iff]
    constructor
    · intro h e he
      exact (ruleRejects_iff env d e (hb e he)).mpr (h e he)
    · intro h e he
      exact (ruleRejects_iff env d e (hb e he)).mp (h e he)
  have hlast : ∀ i (hi : i < (ts.map (fun t => compiled t.1 t.2.1 t.2.2)).length),
      ruleMatches env d ((ts.map (fun t => compiled t.1 t.2.1 t.2.2)).get ⟨i, hi⟩) →
      (∀ j (hj : j < (ts.map (fun t => compiled t.1 t.2.1 t.2.2)).length), i < j →
        ruleRejects env d ((ts.map (fun t => compiled t.1 t.2.1 t.2.2)).get ⟨j, hj⟩)) →
      IsExcludedFromList env d { Excludes := ts.map (fun t => compiled t.1 t.2.1 t.2.2) } =
        .ok (if hasFlag ((ts.map (fun t => compiled t.1 t.2.1 t.2.2)).get ⟨i, hi⟩).Flags
            ExcFlagNegative = true
          then NotExcluded else Excluded) := by
    intro i hi hm hrej
    exact IsExcludedFromList_of_last env d _ i hi
      ((ruleOutcome_ok_true_iff env d _ (hb _ (List.get_mem _ _ _))).mpr hm)
      (fun j hj hij =>
        (ruleRejects_iff env d _ (hb _ (List.get_mem _ _ _))).mp (hrej j hj hij))
  refine ⟨_, addAll_eq ts, ?_, hund, hlast, ?_⟩
  · simp only [List.forall₂_map_right_iff]
    exact List.forall₂_same.mpr (fun t _ => CreateExclude_eq _ _ _)
  · intro hret
    constructor
    · rw [hund]
      constructor
      · intro h e he
        exact not_matches_of_rejects env d e (h e he)
      · intro h e he
        exact rejects_of_not_matches env d e (hret e he) (h e he)
    · intro i hi hm hno
      exact hlast i hi hm (fun j hj hij =>
        rejects_of_not_matches env d _ (hret _ (List.get_mem _ _ _)) (hno j hj hij))

/-- C1 instance: the rules of the test "whitelisting" and the file `not-excluded-file`. -/
theorem last_match_wins_witness :
    (∀ t ∈ whitelistRules, validBase t.2.1) ∧
    ∃ el, addAll whitelistRules = .ok el ∧
      List.Forall₂ (fun t e => CreateExclude t.1 t.2.1 t.2.2 = .ok e) whitelistRules
        el.Excludes ∧
      (IsExcludedFromList sensitiveEnv (fileAt "not-excluded-file") el = .ok ExclusionUndecided ↔
        ∀ e ∈ el.Excludes, ruleRejects sensitiveEnv (fileAt "not-excluded-file") e) ∧
      (∀ i (hi : i < el.Excludes.length),
        ruleMatches sensitiveEnv (fileAt "not-excluded-file") (el.Excludes.get ⟨i, hi⟩) →
        (∀ j (hj : j < el.Excludes.length), i < j →
          ruleRejects sensitiveEnv (fileAt "not-excluded-file") (el.Excludes.get ⟨j, hj⟩)) →
        IsExcludedFromList sensitiveEnv (fileAt "not-excluded-file") el =
          .ok (if hasFlag (el.Excludes.get ⟨i, hi⟩).Flags ExcFlagNegative = true
            then NotExcluded else Excluded)) ∧
      ((∀ e ∈ el.Excludes, ruleReturns sensitiveEnv (fileAt "not-excluded-file") e) →
        (IsExcludedFromList sensitiveEnv (fileAt "not-excluded-file") el
            = .ok ExclusionUndecided ↔
          ∀ e ∈ el.Excludes, ¬ ruleMatches sensitiveEnv (fileAt "not-excluded-file") e) ∧
        (∀ i (hi : i < el.Excludes.length),
          ruleMatches sensitiveEnv (fileAt "not-excluded-file") (el.Excludes.get ⟨i, hi⟩) →
          (∀ j (hj : j < el.Excludes.length), i < j →
            ¬ ruleMatches sensitiveEnv (fileAt "not-excluded-file")
              (el.Excludes.get ⟨j, hj⟩)) →
          IsExcludedFromList sensitiveEnv (fileAt "not-excluded-file") el =
            .ok (if hasFlag (el.Excludes.get ⟨i, hi⟩).Flags ExcFlagNegative = true
              then NotExcluded else Excluded))) :=
  ⟨by decide, last_match_wins sensitiveEnv (fileAt "not-excluded-file") whitelistRules
    (by decide)⟩

/-! ## C2: the children of a directory -/

/-- C2 (what the code does). For every glob engine that accepts the pattern `*` and in
which it matches exactly the non-empty texts without `'/'`, the rule compiled from
`d ++ "/*"` with empty base leaves every candidate `d ++ "/" ++ x` undecided: after the
literal prefix `d/` has been compared, `MatchPathname` hands the remaining pattern `*` to the
glob engine together with the whole pathname `d/x`, which contains a `'/'`, and not with the
remaining name `x`. -/
theorem children_rule_undecided (env : Env)
    (haccept : ∀ (fold : Bool) (s : Str), env.Wildmatch (bytes "*") fold s ≠ none)
    (hstar : ∀ (fold : Bool) (s : Str),
      env.Wildmatch (bytes "*") fold s = some true ↔ (s ≠ [] ∧ slash ∉ s))
    (dname x : Str) (cand : Dirent)
    (hd : dname ≠ []) (hds : slash ∉ dname)
    (hdg : ∀ c ∈ dname, IsGlobSpecial c = false) (hbang : dname.head? ≠ some bang)
    (hcand : cand.pathname = dname ++ bytes "/" ++ x) :
    ∃ el, CreateExcludeList.AddExclude (dname ++ bytes "/*") [] 0 = .ok el ∧
      IsExcludedFromList env cand el = .ok ExclusionUndecided := by
  refine ⟨_, AddExclude_eq _ _ _ _, ?_⟩
  rw [bytes_slash_star]
  have hraw1 : (dname ++ [slash, star]).head? ≠ some bang := by
    rw [head?_append_of_ne_nil _ _ hd]; exact hbang
  have hraw2 : (dname ++ [slash, star]).getLast? ≠ some slash := by
    have : dname ++ [slash, star] = (dname ++ [slash]) ++ [star] := by simp
    rw [this, List.getLast?_concat]; decide
  have hnorm := normalise_of_plain _ hraw1 hraw2
  have hdb : dropBang (dname ++ [slash, star]) = dname ++ [slash, star] := by
    rw [dropBang_eq, bytes_bang, not_hasPrefix_of_head _ bang hraw1]; simp
  have hmbd : hasFlag (flagsOf (dname ++ [slash, star])) ExcFlagMustbedir = false := by
    rw [hasFlag_flagsOf_mustbedir, hdb, bytes_slash, not_hasSuffix_of_getLast _ slash hraw2]
  have hnodir : hasFlag (flagsOf (dname ++ [slash, star])) ExcFlagNodir = false := by
    cases h : hasFlag (flagsOf (dname ++ [slash, star])) ExcFlagNodir
    · rfl
    · exfalso
      have := (hasFlag_flagsOf_nodir _).mp h
      rw [hnorm] at this
      have e : dname ++ [slash, star] = (dname ++ [slash]) ++ [star] := by simp
      rw [e, List.dropLast_concat] at this
      exact this (by simp)
  have hcand2 : cand.pathname = dname ++ slash :: x := by
    rw [hcand, bytes_slash]; simp
  have hpath : pathnameResult env cand (compiled (dname ++ [slash, star]) [] 0)
      = .ok false := by
    unfold pathnameResult
    simp only [compiled, hnorm, hcand2]
    have hps : stringsHasPrefix (dname ++ [slash, star]) (bytes "/") = false := by
      rw [bytes_slash]
      apply not_hasPrefix_of_head
      rw [head?_append_of_ne_nil _ _ hd]
      exact head?_ne_of_not_mem _ _ hds
    have hbs : stringsHasSuffix ([] : Str) (bytes "/") = false := by decide
    have hns : stringsHasPrefix (dname ++ slash :: x) (bytes "/") = false := by
      rw [bytes_slash]
      apply not_hasPrefix_of_head
      rw [head?_append_of_ne_nil _ _ hd]
      exact head?_ne_of_not_mem _ _ hds
    have hsl : SimpleLength (dname ++ [slash, star]) = len (dname ++ [slash]) := by
      have e : dname ++ [slash, star] = (dname ++ [slash]) ++ star :: [] := by simp
      rw [e]
      apply SimpleLength_append_cons
      · intro c hc
        rcases List.mem_append.mp hc with h | h
        · exact hdg c h
        · simp at h; rw [h]; decide
      · decide
    have hdrop : List.drop (len (dname ++ [slash])).toNat (dname ++ [slash, star]) = [star] := by
      have e : dname ++ [slash, star] = (dname ++ [slash]) ++ [star] := by simp
      rw [e]
      simp [len]
    have hw : env.Wildmatch [star] true (dname ++ slash :: x) = some false := by
      cases h : env.Wildmatch [star] true (dname ++ slash :: x) with
      | none =>
        rw [← bytes_star] at h
        exact absurd h (haccept true _)
      | some b =>
        cases b
        · rfl
        · exfalso
          rw [← bytes_star] at h
          have := ((hstar true _).mp h).2
          exact this (by simp)
    simp only [hps, hbs, hns, hsl, hdrop, globMatch, hw, Bool.false_eq_true, if_false]
    simp [len]
  rw [CreateExcludeList, List.nil_append, single_rule]
  simp only [compiled] at hpath ⊢
  simp [hmbd, hnodir, hpath, len, Except.map]

theorem starGlob_accepts (fold : Bool) (s : Str) :
    sensitiveEnv.Wildmatch (bytes "*") fold s ≠ none := by
  simp [sensitiveEnv]

theorem starGlob_star (fold : Bool) (s : Str) :
    sensitiveEnv.Wildmatch (bytes "*") fold s = some true ↔ (s ≠ [] ∧ slash ∉ s) := by
  simp [sensitiveEnv, starGlob, bytes_star]

/-- C2 instance: the rule `dir/*` leaves the child `dir/x` undecided. -/
theorem children_rule_undecided_witness :
    (∀ (fold : Bool) (s : Str), sensitiveEnv.Wildmatch (bytes "*") fold s ≠ none) ∧
    (∀ (fold : Bool) (s : Str),
      sensitiveEnv.Wildmatch (bytes "*") fold s = some true ↔ (s ≠ [] ∧ slash ∉ s)) ∧
    ∃ el, CreateExcludeList.AddExclude (bytes "dir" ++ bytes "/*") [] 0 = .ok el ∧
      IsExcludedFromList sensitiveEnv (fileAt "dir/x") el = .ok ExclusionUndecided :=
  ⟨starGlob_accepts, starGlob_star,
    children_rule_undecided sensitiveEnv starGlob_accepts starGlob_star (bytes "dir")
      (bytes "x") (fileAt "dir/x") (by decide) (by decide) (by decide) (by decide)
      (by decide)⟩

/-! ## C3: base-directory scoping -/

/-- C3 fails as stated, in three ways. A rule with `ExcFlagNodir` is matched on the basename
alone, whatever its base; the base `"/"` is compared over zero bytes, like the empty base;
and in case-insensitive mode the base is compared with `strings.EqualFold`. In each case the
candidate does not start with the base and is decided `Excluded`. -/
theorem base_scoping_counterexample :
    (¬ bytes "in/subfolder/" <+: (fileAt "other/exclude-me").pathname ∧
      ∃ e, CreateExclude (bytes "exclude-me") (bytes "in/subfolder/") 0 = .ok e ∧
        IsExcludedFromList sensitiveEnv (fileAt "other/exclude-me") { Excludes := [e] }
          = .ok Excluded) ∧
    (¬ bytes "/" <+: (fileAt "a/b").pathname ∧
      ∃ e, CreateExclude (bytes "a/b") (bytes "/") 0 = .ok e ∧
        IsExcludedFromList sensitiveEnv (fileAt "a/b") { Excludes := [e] } = .ok Excluded) ∧
    (¬ bytes "d/" <+: (fileAt "D/a/b").pathname ∧
      ∃ e, CreateExclude (bytes "a/b") (bytes "d/") 0 = .ok e ∧
        IsExcludedFromList foldingEnv (fileAt "D/a/b") { Excludes := [e] } = .ok Excluded) :=
  ⟨⟨by decide, _, CreateExclude_eq _ _ _, by decide⟩,
   ⟨by decide, _, CreateExclude_eq _ _ _, by decide⟩,
   ⟨by decide, _, CreateExclude_eq _ _ _, by decide⟩⟩

/-- C3, amended. Base-directory scoping of pathname rules: a rule compiled by `CreateExclude`
whose normalised pattern has a `'/'` before its last byte lacks `ExcFlagNodir`; if its base
ends with `'/'`, it leaves undecided every candidate whose path is shorter than the base,
and, in case-sensitive mode and for a base other than `"/"`, every candidate whose path
does not start with the base. -/
theorem base_scoping (env : Env) (pattern base : Str) (srcpos : Int) (cand : Dirent)
    (hbs : base.getLast? = some slash)
    (hslash : slash ∈ (normalise pattern).dropLast)
    (hout : len cand.pathname < len base ∨
      (env.SystemCaseNil = true ∧ base ≠ bytes "/" ∧ ¬ base <+: cand.pathname)) :
    ∃ e, CreateExclude pattern base srcpos = .ok e ∧
      hasFlag e.Flags ExcFlagNodir = false ∧
      IsExcludedFromList env cand { Excludes := [e] } = .ok ExclusionUndecided := by
  have hnodir : hasFlag (flagsOf pattern) ExcFlagNodir = false :=
    hasFlag_false_of_not _ _ (fun h => (hasFlag_flagsOf_nodir pattern).mp h hslash)
  refine ⟨_, CreateExclude_eq _ _ _, hnodir, ?_⟩
  have hvalid : ¬ ((len base != 0 && !stringsHasSuffix base (bytes "/")) = true) :=
    (validBase_iff base).mp (Or.inr hbs)
  have hpath : pathnameResult env cand (compiled pattern base srcpos) = .ok false :=
    pathnameResult_outside_base env cand _ hbs (by rw [← bytes_slash]; exact hout)
  rw [single_rule]
  simp only [compiled] at hpath ⊢
  rw [hnodir, hpath]
  simp only [Bool.false_eq_true, if_false]
  rw [if_neg hvalid]
  split <;> rfl

/-- C3 instance: the rule `exclude-me/too` based in `in/subfolder/` and the candidate
`out/subfolder/exclude-me/too`. -/
theorem base_scoping_witness :
    (bytes "in/subfolder/").getLast? = some slash ∧
    slash ∈ (normalise (bytes "exclude-me/too")).dropLast ∧
    (len (fileAt "out/subfolder/exclude-me/too").pathname < len (bytes "in/subfolder/") ∨
      (sensitiveEnv.SystemCaseNil = true ∧ bytes "in/subfolder/" ≠ bytes "/" ∧
        ¬ bytes "in/subfolder/" <+: (fileAt "out/subfolder/exclude-me/too").pathname)) ∧
    ∃ e, CreateExclude (bytes "exclude-me/too") (bytes "in/subfolder/") 0 = .ok e ∧
      hasFlag e.Flags ExcFlagNodir = false ∧
      IsExcludedFromList sensitiveEnv (fileAt "out/subfolder/exclude-me/too") { Excludes := [e] }
        = .ok ExclusionUndecided :=
  ⟨by decide, by decide, by decide,
    base_scoping sensitiveEnv (bytes "exclude-me/too") (bytes "in/subfolder/") 0
      (fileAt "out/subfolder/exclude-me/too") (by decide) (by decide) (by decide)⟩

/-! ## C4: directory-only rules -/

/-- C4. Directory-only enforcement: a raw pattern ending in `'/'` compiles to a rule with
`ExcFlagMustbedir`; and for a non-directory candidate and every rule set, the outcome of
`IsExcludedFromList` is the same as on the rule set with all `ExcFlagMustbedir` rules
removed, so that either call returns a decision exactly when the other returns it; the rule
the scan returns is never a `ExcFlagMustbedir` rule; and the call does return a decision
when the bases are empty or end with `'/'` and the match of every rule returns. -/
theorem directory_only (env : Env) (d : Dirent) (l : List Exclude) (raw base : Str)
    (srcpos : Int) (hraw : raw.getLast? = some slash) (hd : d.IsDir = false) :
    (∃ e, CreateExclude raw base srcpos = .ok e ∧ hasFlag e.Flags ExcFlagMustbedir = true) ∧
    IsExcludedFromList env d { Excludes := l } =
      IsExcludedFromList env d
        { Excludes := l.filter (fun e => !hasFlag e.Flags ExcFlagMustbedir) } ∧
    (∀ r, IsExcludedFromList env d { Excludes := l } = .ok r ↔
      IsExcludedFromList env d
        { Excludes := l.filter (fun e => !hasFlag e.Flags ExcFlagMustbedir) } = .ok r) ∧
    (∀ e, LastExcludeMatchingFromList env d { Excludes := l } = .ok (some e) →
      hasFlag e.Flags ExcFlagMustbedir = false) ∧
    ((∀ e ∈ l, validBase e.Base) → (∀ e ∈ l, ruleReturns env d e) →
      ∃ r, IsExcludedFromList env d { Excludes := l } = .ok r) := by
  have heq : IsExcludedFromList env d { Excludes := l } =
      IsExcludedFromList env d
        { Excludes := l.filter (fun e => !hasFlag e.Flags ExcFlagMustbedir) } := by
    unfold IsExcludedFromList
    rw [scan_filter_mustbedir env d hd l]
  refine ⟨⟨_, CreateExclude_eq _ _ _, mustbedir_of_trailing_slash raw hraw⟩, heq, ?_,
    fun e he => scan_result_not_mustbedir env d hd l e he,
    fun hb hr => IsExcludedFromList_returns env d l (fun e he _ => hb e he) hr⟩
  intro r
  rw [heq]

/-- C4 instance: the file `in/subfolder/exclude-me` against a plain rule followed by the
directory-only rule `!exclude-me/`. -/
theorem directory_only_witness :
    (bytes "exclude-me/").getLast? = some slash ∧
    (fileAt "in/subfolder/exclude-me").IsDir = false ∧
    (∃ e, CreateExclude (bytes "exclude-me/") (bytes "in/subfolder/") 0 = .ok e ∧
      hasFlag e.Flags ExcFlagMustbedir = true) ∧
    IsExcludedFromList sensitiveEnv (fileAt "in/subfolder/exclude-me")
        { Excludes := mustBeDirRules } =
      IsExcludedFromList sensitiveEnv (fileAt "in/subfolder/exclude-me")
        { Excludes := mustBeDirRules.filter (fun e => !hasFlag e.Flags ExcFlagMustbedir) } ∧
    (∀ r, IsExcludedFromList sensitiveEnv (fileAt "in/subfolder/exclude-me")
        { Excludes := mustBeDirRules } = .ok r ↔
      IsExcludedFromList sensitiveEnv (fileAt "in/subfolder/exclude-me")
        { Excludes := mustBeDirRules.filter (fun e => !hasFlag e.Flags ExcFlagMustbedir) }
        = .ok r) ∧
    (∀ e, LastExcludeMatchingFromList sensitiveEnv (fileAt "in/subfolder/exclude-me")
        { Excludes := mustBeDirRules } = .ok (some e) →
      hasFlag e.Flags ExcFlagMustbedir = false) ∧
    ((∀ e ∈ mustBeDirRules, validBase e.Base) →
      (∀ e ∈ mustBeDirRules,
        ruleReturns sensitiveEnv (fileAt "in/subfolder/exclude-me") e) →
      ∃ r, IsExcludedFromList sensitiveEnv (fileAt "in/subfolder/exclude-me")
        { Excludes := mustBeDirRules } = .ok r) :=
  ⟨by decide, by decide,
    directory_only sensitiveEnv (fileAt "in/subfolder/exclude-me") mustBeDirRules
      (bytes "exclude-me/") (bytes "in/subfolder/") 0 (by decide) (by decide)⟩

/-! ## C5: malformed base -/

/-- C5 fails as stated: a rule with `ExcFlagNodir` is matched on the basename before the
base is looked at, and a `ExcFlagMustbedir` rule is skipped for a non-directory; with the
malformed base `bad` both return a decision. -/
theorem malformed_base_counterexample :
    (bytes "bad" ≠ [] ∧ (bytes "bad").getLast? ≠ some slash) ∧
    (∃ e, CreateExclude (bytes "foo") (bytes "bad") 0 = .ok e ∧
      IsExcludedFromList sensitiveEnv (fileAt "foo") { Excludes := [e] } = .ok Excluded) ∧
    (∃ e, CreateExclude (bytes "foo/bar/") (bytes "bad") 0 = .ok e ∧
      IsExcludedFromList sensitiveEnv (fileAt "foo/bar") { Excludes := [e] }
        = .ok ExclusionUndecided) :=
  ⟨by decide, ⟨_, CreateExclude_eq _ _ _, by decide⟩, ⟨_, CreateExclude_eq _ _ _, by decide⟩⟩

/-- C5, amended. For every rule that lacks `ExcFlagNodir` and is not skipped (it lacks
`ExcFlagMustbedir` or the candidate is a directory), if its base is non-empty and does not
end with `'/'` then `IsExcludedFromList` on the rule set holding only that rule returns no
decision: it fails with the panic "assertion failed, Exclude.Base  is invalid". -/
theorem malformed_base_panics (env : Env) (d : Dirent) (e : Exclude)
    (hne : e.Base ≠ []) (hns : e.Base.getLast? ≠ some slash)
    (hnodir : hasFlag e.Flags ExcFlagNodir = false)
    (hdir : hasFlag e.Flags ExcFlagMustbedir = true → d.IsDir = true) :
    IsExcludedFromList env d { Excludes := [e] } = .error Panic.invalidBase := by
  have hinv : (len e.Base != 0 && !stringsHasSuffix e.Base (bytes "/")) = true := by
    by_contra h
    rcases (validBase_iff e.Base).mpr h with h1 | h1
    · exact hne h1
    · exact hns h1
  have hskip : (hasFlag e.Flags ExcFlagMustbedir && !d.IsDir) = false := by
    cases hm : hasFlag e.Flags ExcFlagMustbedir
    · rfl
    · rw [hdir hm]; rfl
  rw [single_rule, hskip, hnodir, hinv]
  rfl

/-- C5 instance: the pathname rule `foo/bar` with the malformed base `bad`. -/
theorem malformed_base_panics_witness :
    (compiled (bytes "foo/bar") (bytes "bad") 0).Base ≠ [] ∧
    (compiled (bytes "foo/bar") (bytes "bad") 0).Base.getLast? ≠ some slash ∧
    hasFlag (compiled (bytes "foo/bar") (bytes "bad") 0).Flags ExcFlagNodir = false ∧
    (hasFlag (compiled (bytes "foo/bar") (bytes "bad") 0).Flags ExcFlagMustbedir = true →
      (fileAt "foo/bar").IsDir = true) ∧
    CreateExclude (bytes "foo/bar") (bytes "bad") 0
      = .ok (compiled (bytes "foo/bar") (bytes "bad") 0) ∧
    IsExcludedFromList sensitiveEnv (fileAt "foo/bar")
      { Excludes := [compiled (bytes "foo/bar") (bytes "bad") 0] }
      = .error Panic.invalidBase :=
  ⟨by decide, by decide, by decide, by decide, CreateExclude_eq _ _ _,
    malformed_base_panics sensitiveEnv (fileAt "foo/bar")
      (compiled (bytes "foo/bar") (bytes "bad") 0) (by decide) (by decide) (by decide)
      (by decide)⟩

/-! ## C6: pattern normalisation -/

/-- C6. Pattern normalisation: `ParseExcludePattern` returns the raw text with one leading
`'!'` removed if present and then one trailing `'/'` removed if present; `ExcFlagNegative` is
set iff the raw pattern starts with `'!'`, `ExcFlagMustbedir` iff the text after removing
that `'!'` ends with `'/'`; `CreateExclude` stores this pattern, these flags, and base and
srcpos unchanged. A pattern with a `'/'`, no leading `'!'`, no trailing `'/'` and no leading
`'*'` is returned unchanged with no flag set. -/
theorem pattern_normalisation (raw base : Str) (srcpos : Int) :
    ∃ flags, ParseExcludePattern raw = .ok (dropTrailingSlash (dropBang raw), flags) ∧
      (hasFlag flags ExcFlagNegative = true ↔ raw.head? = some bang) ∧
      (hasFlag flags ExcFlagMustbedir = true ↔ (dropBang raw).getLast? = some slash) ∧
      CreateExclude raw base srcpos =
        .ok (Exclude.mk (dropTrailingSlash (dropBang raw)) base flags srcpos) ∧
      (slash ∈ raw → raw.head? ≠ some bang → raw.getLast? ≠ some slash →
        raw.head? ≠ some star → dropTrailingSlash (dropBang raw) = raw ∧ flags = 0) := by
  refine ⟨flagsOf raw, ParseExcludePattern_ok raw, ?_, ?_, CreateExclude_eq raw base srcpos, ?_⟩
  · rw [hasFlag_flagsOf_negative, hasPrefix_bang_iff]
  · rw [hasFlag_flagsOf_mustbedir, hasSuffix_slash_iff]
  · intro hs h1 h2 h3
    exact ⟨normalise_of_plain raw h1 h2, flagsOf_plain_pathname raw hs h1 h2 h3⟩

/-- C6 instance: the pattern `/simple-pattern` of the test "Simple pattern" is stored
unchanged, with no flag. -/
theorem pattern_normalisation_witness :
    CreateExclude (bytes "/simple-pattern") (bytes "") 0 =
      .ok (Exclude.mk (bytes "/simple-pattern") (bytes "") 0 0) := by
  obtain ⟨flags, _, _, _, h4, h5⟩ := pattern_normalisation (bytes "/simple-pattern") (bytes "") 0
  obtain ⟨h6, h7⟩ := h5 (by decide) (by decide) (by decide) (by decide)
  rw [h4, h6, h7]

/-! ## C7: the flags of an ends-with pattern -/

/-- C7 fails as stated: the literal `a/b` has no glob metacharacter, and the rule compiled
from `*a/b` has `ExcFlagEndswith` but not `ExcFlagNodir`. -/
theorem endswith_nodir_counterexample :
    (∀ c ∈ bytes "a/b", IsGlobSpecial c = false) ∧
    ∃ e, CreateExclude (bytes "*" ++ bytes "a/b") (bytes "") 0 = .ok e ∧
      hasFlag e.Flags ExcFlagEndswith = true ∧ hasFlag e.Flags ExcFlagNodir = false :=
  ⟨by decide, _, CreateExclude_eq _ _ _, by decide, by decide⟩

/-- C7, amended. For every pattern `"*" ++ literal` whose literal has no glob
metacharacter, the flags computed by `CreateExclude` have `ExcFlagEndswith` set; they have
`ExcFlagNodir` set iff, once one trailing `'/'` is removed from the literal, no `'/'` stands
before its last byte, and so whenever the literal contains no `'/'`. -/
theorem endswith_flags (lit base : Str) (srcpos : Int)
    (hlit : ∀ c ∈ lit, IsGlobSpecial c = false) :
    ∃ e, CreateExclude (bytes "*" ++ lit) base srcpos = .ok e ∧
      hasFlag e.Flags ExcFlagEndswith = true ∧
      (hasFlag e.Flags ExcFlagNodir = true ↔ slash ∉ (dropTrailingSlash lit).dropLast) ∧
      (slash ∉ lit → hasFlag e.Flags ExcFlagNodir = true) := by
  refine ⟨_, CreateExclude_eq _ _ _, ?_, ?_, ?_⟩
  · simp only [compiled]
    rw [hasFlag_flagsOf_endswith, bytes_star, List.singleton_append, normalise_star_cons]
    have h1 : stringsHasPrefix (star :: dropTrailingSlash lit) [star] = true :=
      (hasPrefix_single _ _).mpr ⟨_, rfl⟩
    have h2 : NoWildcard (star :: dropTrailingSlash lit).tail = true :=
      (NoWildcard_iff _).mpr (fun c hc => hlit c (mem_dropTrailingSlash lit c hc))
    rw [h1, h2]; rfl
  · simp only [compiled]
    rw [hasFlag_flagsOf_nodir, bytes_star, List.singleton_append, normalise_star_cons]
    cases hl : dropTrailingSlash lit with
    | nil => simp
    | cons c t =>
      rw [List.dropLast_cons₂]
      simp only [List.mem_cons, not_or]
      constructor
      · exact fun h => h.2
      · exact fun h => ⟨by decide, h⟩
  · intro hs
    simp only [compiled]
    rw [hasFlag_flagsOf_nodir, bytes_star, List.singleton_append, normalise_star_cons]
    intro hm
    have := List.mem_of_mem_dropLast hm
    rcases List.mem_cons.mp this with h | h
    · exact absurd h (by decide)
    · exact hs (mem_dropTrailingSlash lit slash h)

/-- C7 instance: the pattern `*ends-with-this` of the test "Sets ExcFlagEndswith". -/
theorem endswith_flags_witness :
    (∀ c ∈ bytes "ends-with-this", IsGlobSpecial c = false) ∧
    ∃ e, CreateExclude (bytes "*" ++ bytes "ends-with-this") (bytes "") 0 = .ok e ∧
      hasFlag e.Flags ExcFlagEndswith = true ∧
      (hasFlag e.Flags ExcFlagNodir = true ↔
        slash ∉ (dropTrailingSlash (bytes "ends-with-this")).dropLast) ∧
      (slash ∉ bytes "ends-with-this" → hasFlag e.Flags ExcFlagNodir = true) :=
  ⟨by decide, endswith_flags (bytes "ends-with-this") (bytes "") 0 (by decide)⟩

/-! ## C8: patterns without separator -/

/-- C8. For every pattern that contains no `'/'` except possibly one trailing `'/'` (with or
without a leading `'!'`), and for every base and srcpos, the flags of `CreateExclude` have
`ExcFlagNodir` set. -/
theorem nodir_of_no_separator (p base : Str) (srcpos : Int)
    (hp : slash ∉ p ∨ ∃ q, p = q ++ [slash] ∧ slash ∉ q) :
    ∃ e, CreateExclude p base srcpos = .ok e ∧ hasFlag e.Flags ExcFlagNodir = true := by
  refine ⟨_, CreateExclude_eq _ _ _, ?_⟩
  simp only [compiled]
  rw [hasFlag_flagsOf_nodir]
  intro hm
  have hm2 := List.mem_of_mem_dropLast hm
  rcases hp with h | ⟨q, rfl, hq⟩
  · exact h (mem_dropBang _ _ (mem_dropTrailingSlash _ _ hm2))
  · unfold normalise at hm2
    rw [dropBang_concat_slash, dropTrailingSlash_concat_slash] at hm2
    exact hq (mem_dropBang _ _ hm2)

/-- C8 instance: the negated directory pattern `!not-excluded-dir/`. -/
theorem nodir_of_no_separator_witness :
    (slash ∉ bytes "!not-excluded-dir/" ∨
      ∃ q, bytes "!not-excluded-dir/" = q ++ [slash] ∧ slash ∉ q) ∧
    ∃ e, CreateExclude (bytes "!not-excluded-dir/") (bytes "") 0 = .ok e ∧
      hasFlag e.Flags ExcFlagNodir = true :=
  ⟨Or.inr ⟨bytes "!not-excluded-dir", by decide, by decide⟩,
    nodir_of_no_separator (bytes "!not-excluded-dir/") (bytes "") 0
      (Or.inr ⟨bytes "!not-excluded-dir", by decide, by decide⟩)⟩

/-! ## C9: literal basename match -/

/-- C9. Literal basename match: in case-sensitive mode, for a pattern with no `'/'`, no glob
metacharacter and no leading `'!'`, for every base, and for every candidate whose path is
non-empty and does not end with `'/'`, the single rule compiled from the pattern decides
`Excluded` iff the last path segment is byte-for-byte equal to the pattern, and
`ExclusionUndecided` otherwise. The decision does not mention the glob engine: it is the same
for every `Wildmatch`. -/
theorem literal_basename (env : Env) (hcs : env.SystemCaseNil = true) (p base : Str)
    (srcpos : Int) (cand : Dirent)
    (hps : slash ∉ p) (hpg : ∀ c ∈ p, IsGlobSpecial c = false) (hpb : p.head? ≠ some bang)
    (hc1 : cand.pathname ≠ []) (hc2 : cand.pathname.getLast? ≠ some slash) :
    ∃ e, CreateExclude p base srcpos = .ok e ∧
      IsExcludedFromList env cand { Excludes := [e] } =
        .ok (if lastSegment cand.pathname = p then Excluded else ExclusionUndecided) := by
  obtain ⟨hnorm, hnodir, hmbd, hneg⟩ := flags_of_basename_pattern p hps hpb
  refine ⟨_, CreateExclude_eq _ _ _, ?_⟩
  have hv : verdict (compiled p base srcpos) = Excluded := verdict_of_not_negative _ hneg
  have hres : basenameResult env cand (compiled p base srcpos) =
      .ok (decide (lastSegment cand.pathname = p)) := by
    unfold basenameResult
    simp only [compiled, hnorm]
    rw [if_pos (SimpleLength_of_none p hpg), pathBase_eq_lastSegment _ hc1 hc2,
      cmpN_sensitive env hcs]
    exact congrArg Except.ok (literal_compare p _)
  rw [single_rule, hv, hres]
  simp only [compiled] at hmbd hnodir ⊢
  rw [hmbd, hnodir]
  simp [Except.map]

/-- C9 instance: the rule `exclude-Dir` and the directory `in/subfolder/exclude-dir`, which
differs in letter case only and is left undecided. -/
theorem literal_basename_witness :
    sensitiveEnv.SystemCaseNil = true ∧
    lastSegment (dirAt "in/subfolder/exclude-dir").pathname ≠ bytes "exclude-Dir" ∧
    ∃ e, CreateExclude (bytes "exclude-Dir") (bytes "in/subfolder/") 0 = .ok e ∧
      IsExcludedFromList sensitiveEnv (dirAt "in/subfolder/exclude-dir") { Excludes := [e] } =
        .ok (if lastSegment (dirAt "in/subfolder/exclude-dir").pathname = bytes "exclude-Dir"
          then Excluded else ExclusionUndecided) :=
  ⟨rfl, by decide,
    literal_basename sensitiveEnv rfl (bytes "exclude-Dir") (bytes "in/subfolder/") 0
      (dirAt "in/subfolder/exclude-dir") (by decide) (by decide) (by decide) (by decide)
      (by decide)⟩

/-! ## C10: the ends-with fast path -/

/-- C10. Ends-with fast path: in case-sensitive mode, for every suffix `s` with no `'/'` and
no glob metacharacter, the rule compiled from `"*" ++ s` has `ExcFlagEndswith`, and it
matches a candidate (path non-empty, not ending with `'/'`) iff the last path segment of the
candidate ends with `s`; the candidate is then decided `Excluded`, and `ExclusionUndecided`
otherwise. This holds for every glob engine: the result does not depend on `Wildmatch`. -/
theorem endswith_fast_path (env : Env) (hcs : env.SystemCaseNil = true) (s base : Str)
    (srcpos : Int) (cand : Dirent)
    (hss : slash ∉ s) (hsg : ∀ c ∈ s, IsGlobSpecial c = false)
    (hc1 : cand.pathname ≠ []) (hc2 : cand.pathname.getLast? ≠ some slash) :
    ∃ e, CreateExclude (bytes "*" ++ s) base srcpos = .ok e ∧
      hasFlag e.Flags ExcFlagEndswith = true ∧
      (ruleMatches env cand e ↔ s <:+ lastSegment cand.pathname) ∧
      IsExcludedFromList env cand { Excludes := [e] } =
        .ok (if s <:+ lastSegment cand.pathname then Excluded else ExclusionUndecided) := by
  have hps : slash ∉ star :: s := by
    intro h
    rcases List.mem_cons.mp h with h | h
    · exact absurd h (by decide)
    · exact hss h
  obtain ⟨hnorm, hnodir, hmbd, hneg⟩ :=
    flags_of_basename_pattern (star :: s) hps (by simp only [List.head?_cons]; decide)
  have hew : hasFlag (flagsOf (star :: s)) ExcFlagEndswith = true := by
    rw [hasFlag_flagsOf_endswith, hnorm]
    have h1 : stringsHasPrefix (star :: s) (bytes "*") = true := by
      rw [bytes_star]; exact (hasPrefix_single _ _).mpr ⟨_, rfl⟩
    have h2 : NoWildcard (star :: s).tail = true := (NoWildcard_iff _).mpr hsg
    rw [h1, h2]; rfl
  have hv : verdict (compiled (star :: s) base srcpos) = Excluded :=
    verdict_of_not_negative _ hneg
  have hsl : SimpleLength (star :: s) ≠ len (star :: s) := by
    have := SimpleLength_append_cons [] s star (fun _ h => absurd h (List.not_mem_nil _))
      (by decide)
    rw [List.nil_append] at this
    rw [this]
    simp [len]
    omega
  have hres : basenameResult env cand (compiled (star :: s) base srcpos) =
      .ok (decide (s <:+ lastSegment cand.pathname)) := by
    unfold basenameResult
    simp only [compiled, hnorm]
    rw [if_neg hsl, hew, if_pos rfl, pathBase_eq_lastSegment _ hc1 hc2, cmpN_sensitive env hcs]
    exact congrArg Except.ok (suffix_compare s _)
  rw [bytes_star, List.singleton_append]
  refine ⟨_, CreateExclude_eq _ _ _, hew, ?_, ?_⟩
  · rw [ruleMatches_iff]
    unfold ruleMatchesB
    rw [hres]
    simp only [compiled] at hmbd hnodir ⊢
    rw [hmbd, hnodir]
    simp
  · rw [single_rule, hv, hres]
    simp only [compiled] at hmbd hnodir ⊢
    rw [hmbd, hnodir]
    simp [Except.map]

/-- C10 instance: the rule `*literal` matches `something-literal`. -/
theorem endswith_fast_path_witness :
    sensitiveEnv.SystemCaseNil = true ∧
    bytes "literal" <:+ lastSegment (dirAt "something-literal").pathname ∧
    ∃ e, CreateExclude (bytes "*" ++ bytes "literal") (bytes "") 0 = .ok e ∧
      hasFlag e.Flags ExcFlagEndswith = true ∧
      (ruleMatches sensitiveEnv (dirAt "something-literal") e ↔
        bytes "literal" <:+ lastSegment (dirAt "something-literal").pathname) ∧
      IsExcludedFromList sensitiveEnv (dirAt "something-literal") { Excludes := [e] } =
        .ok (if bytes "literal" <:+ lastSegment (dirAt "something-literal").pathname
          then Excluded else ExclusionUndecided) :=
  ⟨rfl, by decide,
    endswith_fast_path sensitiveEnv rfl (bytes "literal") (bytes "") 0
      (dirAt "something-literal") (by decide) (by decide) (by decide) (by decide)⟩

/-! ## C11: the literal pathname fast path -/

/-- C11 fails as stated: with the empty base, the pattern `a/b` is not a start of
`/a/b`, and yet the candidate `/a/b` is decided `Excluded`, because `MatchPathname` removes
one leading `'/'` from the name. -/
theorem literal_pathname_counterexample :
    validBase (bytes "") ∧ ¬ bytes "a/b" <+: bytes "/a/b" ∧
    (fileAt "/a/b").pathname = bytes "" ++ bytes "/a/b" ∧
    sensitiveEnv.SystemCaseNil = true ∧
    ∃ e, CreateExclude (bytes "a/b") (bytes "") 0 = .ok e ∧
      IsExcludedFromList sensitiveEnv (fileAt "/a/b") { Excludes := [e] } = .ok Excluded :=
  ⟨by decide, by decide, by decide, rfl, _, CreateExclude_eq _ _ _, by decide⟩

/-- C11, amended. Literal pathname fast path: for a pattern `p` without glob metacharacter
that does not start with `'!'` or `'/'`, does not end with `'/'` and contains a `'/'`, and a
base `b` that is empty or ends with `'/'`, the single rule `(p, b)` decides `Excluded` for
the candidate `b ++ p` (in case-sensitive mode, and in case-insensitive mode as soon as
`strings.EqualFold` holds of equal texts), and in case-sensitive mode decides
`ExclusionUndecided` for every candidate `b ++ n` such that `p` is not a start of `n` nor,
when `b` is empty and `n` starts with `'/'`, of `n` without that `'/'`. Both hold for every
glob engine. -/
theorem literal_pathname (env : Env)
    (hrefl : env.SystemCaseNil = true ∨ ∀ s, env.EqualFold s s = true)
    (p b : Str) (srcpos : Int) (cand : Dirent)
    (hpg : ∀ c ∈ p, IsGlobSpecial c = false) (hp1 : p.head? ≠ some bang)
    (hp2 : p.head? ≠ some slash) (hp3 : p.getLast? ≠ some slash) (hp4 : slash ∈ p)
    (hb : validBase b) (hc : cand.pathname = b ++ p) :
    ∃ e, CreateExclude p b srcpos = .ok e ∧
      IsExcludedFromList env cand { Excludes := [e] } = .ok Excluded ∧
      (env.SystemCaseNil = true → ∀ (n : Str) (other : Dirent), other.pathname = b ++ n →
        ¬ p <+: n → (b = [] → n.head? = some slash → ¬ p <+: n.tail) →
        IsExcludedFromList env other { Excludes := [e] } = .ok ExclusionUndecided) := by
  have hpne : p ≠ [] := List.ne_nil_of_mem hp4
  have hnorm := normalise_of_plain p hp1 hp3
  have hflags := flagsOf_plain_pathname p hp4 hp1 hp3 (head?_ne_star_of_no_glob p hpg)
  have hpat : (if (compiled p b srcpos).Pattern.head? = some slash
      then (compiled p b srcpos).Pattern.tail else (compiled p b srcpos).Pattern) = p := by
    simp only [compiled, hnorm]
    rw [if_neg hp2]
  refine ⟨_, CreateExclude_eq _ _ _, ?_, ?_⟩
  · rw [single_pathname_rule env cand _ hflags hb,
      pathnameResult_under_base env cand _ p hb hc (fun _ => hpne), hpat,
      cmpN_self env hrefl, prefixMatch_literal env p _ _ hpg hpne]
    have hrel : relName (compiled p b srcpos).Base p = p := by
      unfold relName
      rw [if_neg hp2]; simp
    rw [hrel, cmpN_self env hrefl]
    simp [Except.map]
  · intro hcs n other ho hn1 hn2
    rw [single_pathname_rule env other _ hflags hb]
    have hfalse : pathnameResult env other (compiled p b srcpos) = .ok false := by
      by_cases hemp : b = [] ∧ n = []
      · apply pathnameResult_empty_path
        rw [ho, hemp.1, hemp.2]; rfl
      · have hn : (compiled p b srcpos).Base = [] → n ≠ [] :=
          fun h1 h2 => hemp ⟨h1, h2⟩
        rw [pathnameResult_under_base env other _ n hb ho hn, hpat,
          prefixMatch_literal env p _ _ hpg hpne, cmpN_literal_sensitive env hcs]
        have hrel : ¬ p <+: relName (compiled p b srcpos).Base n := by
          unfold relName
          simp only [compiled]
          by_cases hbe : b = []
          · rw [if_pos hbe]
            by_cases hh : n.head? = some slash
            · rw [if_pos hh]; exact hn2 hbe hh
            · rw [if_neg hh]; exact hn1
          · rw [if_neg hbe]; exact hn1
        simp [hrel]
    rw [hfalse]
    rfl

/-- C11 instance: the rule `exclude-me/too` based in `in/subfolder/` and the candidate
`in/subfolder/exclude-me/too` of the test "removing / prefix from name". -/
theorem literal_pathname_witness :
    validBase (bytes "in/subfolder/") ∧
    ∃ e, CreateExclude (bytes "exclude-me/too") (bytes "in/subfolder/") 0 = .ok e ∧
      IsExcludedFromList sensitiveEnv (fileAt "in/subfolder/exclude-me/too") { Excludes := [e] }
        = .ok Excluded ∧
      (sensitiveEnv.SystemCaseNil = true → ∀ (n : Str) (other : Dirent),
        other.pathname = bytes "in/subfolder/" ++ n →
        ¬ bytes "exclude-me/too" <+: n →
        (bytes "in/subfolder/" = [] → n.head? = some slash →
          ¬ bytes "exclude-me/too" <+: n.tail) →
        IsExcludedFromList sensitiveEnv other { Excludes := [e] } = .ok ExclusionUndecided) :=
  ⟨by decide,
    literal_pathname sensitiveEnv (Or.inl rfl) (bytes "exclude-me/too")
      (bytes "in/subfolder/") 0 (fileAt "in/subfolder/exclude-me/too") (by decide) (by decide)
      (by decide) (by decide) (by decide) (by decide) (by decide)⟩

/-! ## C12: leading-slash anchoring -/

/-- C12. Leading-slash anchoring: for a non-empty name `x` without `'/'` and without glob
metacharacter, and a base `b` that is empty or ends with `'/'`, the rule compiled from
`"/" ++ x` with base `b` lacks `ExcFlagNodir`; it decides `Excluded` for the candidate
`b ++ x` (in case-sensitive mode, and in case-insensitive mode as soon as `strings.EqualFold`
holds of equal texts), and, for every glob engine that rejects the empty pattern on
non-empty input, it
decides `ExclusionUndecided` for every deeper candidate `b ++ s ++ "/" ++ x` with `s`
non-empty. -/
theorem leading_slash_anchoring (env : Env)
    (hrefl : env.SystemCaseNil = true ∨ ∀ s, env.EqualFold s s = true)
    (x b : Str) (srcpos : Int) (cand : Dirent)
    (hx : x ≠ []) (hxs : slash ∉ x) (hxg : ∀ c ∈ x, IsGlobSpecial c = false)
    (hb : validBase b) (hc : cand.pathname = b ++ x) :
    ∃ e, CreateExclude (bytes "/" ++ x) b srcpos = .ok e ∧
      hasFlag e.Flags ExcFlagNodir = false ∧
      IsExcludedFromList env cand { Excludes := [e] } = .ok Excluded ∧
      ((∀ (fold : Bool) (t : Str), t ≠ [] → env.Wildmatch [] fold t = some false) →
        ∀ (s : Str) (deeper : Dirent), s ≠ [] →
          deeper.pathname = b ++ s ++ bytes "/" ++ x →
          IsExcludedFromList env deeper { Excludes := [e] } = .ok ExclusionUndecided) := by
  rw [bytes_slash, List.singleton_append]
  have hx1 : x.head? ≠ some slash := head?_ne_of_not_mem x slash hxs
  have hr1 : (slash :: x).head? ≠ some bang := by simp only [List.head?_cons]; decide
  have hr2 : (slash :: x).getLast? ≠ some slash := by
    rw [getLast?_cons_of_ne_nil slash x hx]
    exact getLast?_ne_of_not_mem x slash hxs
  have hr3 : (slash :: x).head? ≠ some star := by simp only [List.head?_cons]; decide
  have hnorm := normalise_of_plain (slash :: x) hr1 hr2
  have hflags := flagsOf_plain_pathname (slash :: x) (by simp) hr1 hr2 hr3
  have hpat : (if (compiled (slash :: x) b srcpos).Pattern.head? = some slash
      then (compiled (slash :: x) b srcpos).Pattern.tail
      else (compiled (slash :: x) b srcpos).Pattern) = x := by
    simp only [compiled, hnorm]
    simp
  refine ⟨_, CreateExclude_eq _ _ _, ?_, ?_, ?_⟩
  · simp only [compiled]; rw [hflags]; exact hasFlag_zero _
  · rw [single_pathname_rule env cand _ hflags hb,
      pathnameResult_under_base env cand _ x hb hc (fun _ => hx), hpat,
      cmpN_self env hrefl, prefixMatch_literal env x _ _ hxg hx]
    have hrel : relName (compiled (slash :: x) b srcpos).Base x = x := by
      unfold relName
      rw [if_neg hx1]; simp
    rw [hrel, cmpN_self env hrefl]
    simp [Except.map]
  · intro hglob s deeper hs hdeep
    have hd2 : deeper.pathname = b ++ (s ++ slash :: x) := by
      rw [hdeep]; simp
    have hne : s ++ slash :: x ≠ [] := by simp
    have hpne : deeper.pathname ≠ [] := by rw [hd2]; simp [hne]
    have hg : globMatch env [] true deeper.pathname = .ok false := by
      unfold globMatch
      rw [hglob true _ hpne]
    rw [single_pathname_rule env deeper _ hflags hb,
      pathnameResult_under_base env deeper _ _ hb hd2 (fun _ => hne), hpat,
      prefixMatch_literal env x _ _ hxg hx, hg]
    have hlen : ¬ (relName (compiled (slash :: x) b srcpos).Base (s ++ slash :: x)).length
        ≤ x.length := by
      have hs1 : 0 < s.length := List.length_pos.mpr hs
      unfold relName
      split
      · split
        · simp only [List.length_tail, List.length_append, List.length_cons]; omega
        · simp only [List.length_append, List.length_cons]; omega
      · simp only [List.length_append, List.length_cons]; omega
    simp [hlen, Except.map]

/-- C12 instance: the rule `/simple-pattern` with the empty base and the candidate
`simple-pattern`. -/
theorem leading_slash_anchoring_witness :
    validBase (bytes "") ∧
    ∃ e, CreateExclude (bytes "/" ++ bytes "simple-pattern") (bytes "") 0 = .ok e ∧
      hasFlag e.Flags ExcFlagNodir = false ∧
      IsExcludedFromList sensitiveEnv (fileAt "simple-pattern") { Excludes := [e] }
        = .ok Excluded ∧
      ((∀ (fold : Bool) (t : Str), t ≠ [] → sensitiveEnv.Wildmatch [] fold t = some false) →
        ∀ (s : Str) (deeper : Dirent), s ≠ [] →
          deeper.pathname = bytes "" ++ s ++ bytes "/" ++ bytes "simple-pattern" →
          IsExcludedFromList sensitiveEnv deeper { Excludes := [e] }
            = .ok ExclusionUndecided) :=
  ⟨by decide,
    leading_slash_anchoring sensitiveEnv (Or.inr asciiEqualFold_refl) (bytes "simple-pattern")
      (bytes "") 0 (fileAt "simple-pattern") (by decide) (by decide) (by decide) (by decide)
      (by decide)⟩

/-! ## C13: the case policy of the glob engine -/

/-- C13 (what the code does). In case-sensitive mode the glob engine is still consulted
with case folding enabled. The engines of `sensitiveEnv` and `strictEnv` agree on every
case-sensitive query, and yet in case-sensitive mode the basename rule `a?` decides the file
`A?` differently under the two, and so does the pathname rule `?/a` for the file `?/A`: the
first engine is asked with `wildmatch.CaseFold` and matches up to letter case. -/
theorem case_policy_diverges :
    sensitiveEnv.SystemCaseNil = true ∧ strictEnv.SystemCaseNil = true ∧
    (∀ (p s : Str), sensitiveEnv.Wildmatch p false s = strictEnv.Wildmatch p false s) ∧
    (∃ e, CreateExclude (bytes "a?") (bytes "") 0 = .ok e ∧
      MatchBasename sensitiveEnv (fileAt "A?") e = .ok true ∧
      MatchBasename strictEnv (fileAt "A?") e = .ok false ∧
      IsExcludedFromList sensitiveEnv (fileAt "A?") { Excludes := [e] } = .ok Excluded ∧
      IsExcludedFromList strictEnv (fileAt "A?") { Excludes := [e] }
        = .ok ExclusionUndecided) ∧
    (∃ e, CreateExclude (bytes "?/a") (bytes "") 0 = .ok e ∧
      MatchPathname sensitiveEnv (fileAt "?/A") e = .ok true ∧
      MatchPathname strictEnv (fileAt "?/A") e = .ok false ∧
      IsExcludedFromList sensitiveEnv (fileAt "?/A") { Excludes := [e] } = .ok Excluded ∧
      IsExcludedFromList strictEnv (fileAt "?/A") { Excludes := [e] }
        = .ok ExclusionUndecided) :=
  ⟨rfl, rfl, fun _ _ => rfl,
    ⟨_, CreateExclude_eq _ _ _, by decide, by decide, by decide, by decide⟩,
    ⟨_, CreateExclude_eq _ _ _, by decide, by decide, by decide, by decide⟩⟩

/-! ## C14: the basename that is compared -/

/-- C14 fails as stated. For the empty path the text after the last `'/'` is empty, but
`MatchBasename` compares the rule with `"."`, so that the rule `.` matches; for the path
`a/b/` the text after the last `'/'` is empty as well, but `MatchBasename` compares the rule
with `b`, so that the rule `b` matches. -/
theorem basename_counterexample :
    (lastSegment (fileAt "").pathname = [] ∧
      matchAgainst sensitiveEnv (compiled (bytes ".") (bytes "") 0)
        (lastSegment (fileAt "").pathname) = .ok false ∧
      MatchBasename sensitiveEnv (fileAt "") (compiled (bytes ".") (bytes "") 0) = .ok true) ∧
    (lastSegment (dirAt "a/b/").pathname = [] ∧
      matchAgainst sensitiveEnv (compiled (bytes "b") (bytes "") 0)
        (lastSegment (dirAt "a/b/").pathname) = .ok false ∧
      MatchBasename sensitiveEnv (dirAt "a/b/") (compiled (bytes "b") (bytes "") 0)
        = .ok true) :=
  ⟨⟨by decide, by decide, by decide⟩, ⟨by decide, by decide, by decide⟩⟩

/-- C14, amended. The basename that `MatchBasename` compares with a rule is
`path.Base(pathname)`: for a path that is non-empty and does not end with `'/'` it is the
text after the last `'/'` (the whole path when it contains none); for the empty path it is
`"."`; for `"/"` it is `"/"`; and for any other path ending with `'/'` it is the basename of
the path without that `'/'`. -/
theorem basename_compared (env : Env) (e : Exclude) (d : Dirent) :
    MatchBasename env d e = matchAgainst env e (pathBase d.pathname) ∧
    (d.pathname ≠ [] → d.pathname.getLast? ≠ some slash →
      pathBase d.pathname = lastSegment d.pathname) ∧
    (d.pathname = [] → pathBase d.pathname = bytes ".") ∧
    (d.pathname = bytes "/" → pathBase d.pathname = bytes "/") ∧
    (∀ p, p ≠ [] → d.pathname = p ++ bytes "/" → pathBase d.pathname = pathBase p) := by
  refine ⟨?_, ?_, ?_, ?_, ?_⟩
  · rw [MatchBasename_eq, basenameResult_eq_matchAgainst]
  · exact pathBase_eq_lastSegment d.pathname
  · intro h; rw [h]; rfl
  · intro h; rw [h]; decide
  · intro p hp h
    rw [h, bytes_slash]
    exact pathBase_concat_slash p hp

/-- C14 instance: the candidate `in/subfolder/exclude-me` is compared by its last segment
`exclude-me`. -/
theorem basename_compared_witness :
    (fileAt "in/subfolder/exclude-me").pathname ≠ [] ∧
    (fileAt "in/subfolder/exclude-me").pathname.getLast? ≠ some slash ∧
    lastSegment (fileAt "in/subfolder/exclude-me").pathname = bytes "exclude-me" ∧
    MatchBasename sensitiveEnv (fileAt "in/subfolder/exclude-me")
        (compiled (bytes "exclude-me") (bytes "in/subfolder/") 0) =
      matchAgainst sensitiveEnv (compiled (bytes "exclude-me") (bytes "in/subfolder/") 0)
        (lastSegment (fileAt "in/subfolder/exclude-me").pathname) := by
  have h := basename_compared sensitiveEnv
    (compiled (bytes "exclude-me") (bytes "in/subfolder/") 0)
    (fileAt "in/subfolder/exclude-me")
  refine ⟨by decide, by decide, by decide, ?_⟩
  rw [h.1, h.2.1 (by decide) (by decide)]

/-! ## C15: the empty pattern -/

/-- C15. An empty pattern never matches: the raw patterns whose normalised text is empty are
exactly `""`, `"!"`, `"/"` and `"!/"`, and for each of them, every base and every candidate
(empty path included, directory or not) the rule set holding only the rule compiled from it
decides `ExclusionUndecided`; it does not fail, and the decision is the same for every glob
engine. -/
theorem empty_pattern_never_matches (env : Env) (raw base : Str) (srcpos : Int)
    (cand : Dirent) :
    (normalise raw = [] ↔
      raw = bytes "" ∨ raw = bytes "!" ∨ raw = bytes "/" ∨ raw = bytes "!/") ∧
    (normalise raw = [] →
      ∃ e, CreateExclude raw base srcpos = .ok e ∧ e.Pattern = [] ∧
        MatchBasename env cand e = .ok false ∧
        IsExcludedFromList env cand { Excludes := [e] } = .ok ExclusionUndecided) := by
  refine ⟨normalise_eq_nil_iff raw, fun hraw => ⟨_, CreateExclude_eq _ _ _, hraw, ?_⟩⟩
  have hnodir : hasFlag (flagsOf raw) ExcFlagNodir = true := by
    rw [hasFlag_flagsOf_nodir, hraw]; simp
  have hres : basenameResult env cand (compiled raw base srcpos) = .ok false := by
    unfold basenameResult
    simp only [compiled, hraw]
    rw [if_pos (by decide)]
    have hne := pathBase_ne_nil cand.pathname
    have : ¬ len ([] : Str) = len (pathBase cand.pathname) := by
      have : 0 < (pathBase cand.pathname).length := List.length_pos.mpr hne
      simp only [len, List.length_nil]; omega
    simp [this]
  refine ⟨by rw [MatchBasename_eq, hres], ?_⟩
  rw [single_rule, hres]
  simp only [compiled] at hnodir ⊢
  rw [hnodir]
  simp [Except.map]

/-- C15 instance: the raw pattern `!/` and the empty candidate path. -/
theorem empty_pattern_never_matches_witness :
    normalise (bytes "!/") = [] ∧
    ∃ e, CreateExclude (bytes "!/") (bytes "bad") 0 = .ok e ∧ e.Pattern = [] ∧
      MatchBasename sensitiveEnv (dirAt "") e = .ok false ∧
      IsExcludedFromList sensitiveEnv (dirAt "") { Excludes := [e] }
        = .ok ExclusionUndecided :=
  ⟨by decide,
    (empty_pattern_never_matches sensitiveEnv (bytes "!/") (bytes "bad") 0 (dirAt "")).2
      (by decide)⟩

/-! ## C16: SimpleLength -/

/-- C16. `SimpleLength(pattern)` is the length of the longest start of the pattern free of
glob metacharacters, the metacharacters being exactly `'*'`, `'?'`, `'['` and `'\\'`: it is
the byte index of the first metacharacter, or `len(pattern)` when there is none
(`SimpleLength("abc?") = 3`); it lies between `0` and `len(pattern)`; and `NoWildcard` holds
iff it equals `len(pattern)`. -/
theorem simple_length_spec (p : Str) :
    SimpleLength p = ((p.takeWhile (fun c => !IsGlobSpecial c)).length : Int) ∧
    (∀ c, IsGlobSpecial c = true ↔ c = star ∨ c = question ∨ c = lbracket ∨ c = backslash) ∧
    ((∀ c ∈ p, IsGlobSpecial c = false) ↔ SimpleLength p = len p) ∧
    (SimpleLength p < len p ↔
      ∃ c, p.get? (SimpleLength p).toNat = some c ∧ IsGlobSpecial c = true) ∧
    0 ≤ SimpleLength p ∧ SimpleLength p ≤ len p ∧
    (NoWildcard p = true ↔ SimpleLength p = len p) ∧
    SimpleLength (bytes "abc?") = 3 := by
  have hb := SimpleLength_bounds p
  have hfi := SimpleLength_eq_findIdx p
  have hnone : (∀ c ∈ p, IsGlobSpecial c = false) ↔ SimpleLength p = len p := by
    constructor
    · exact SimpleLength_of_none p
    · intro h c hc
      by_contra hsp
      have hlt : p.findIdx IsGlobSpecial < p.length :=
        List.findIdx_lt_length.mpr ⟨c, hc, by simpa using hsp⟩
      rw [hfi] at h
      simp only [len] at h
      omega
  refine ⟨?_, ?_, hnone, ?_, hb.1, hb.2, ?_, by decide⟩
  · rw [hfi, findIdx_eq_length_takeWhile]
  · intro c
    simp [IsGlobSpecial, or_assoc]
  · rw [hfi]
    simp only [len, Int.toNat_ofNat]
    constructor
    · intro h
      have hlt : p.findIdx IsGlobSpecial < p.length := by omega
      refine ⟨p.get ⟨_, hlt⟩, List.get?_eq_get hlt, ?_⟩
      exact @List.findIdx_getElem _ IsGlobSpecial p hlt
    · rintro ⟨c, hc, _⟩
      rw [List.get?_eq_getElem?] at hc
      have := (List.getElem?_eq_some_iff.mp hc).1
      omega
  · rw [NoWildcard_iff]; exact hnone

/-! ## C17: when the scan fails -/

/-- C17 fails as stated: the assertion on the base is not the only panic. The rule
`[[:foo:]]` with the empty base has a well-formed base, so that the scan does not fail on
it; but with a glob engine that panics on this malformed pattern, as `wildmatch.NewWildmatch`
does, `IsExcludedFromList` panics for the file `a`, inside the glob call of
`MatchBasename`. -/
theorem scan_failure_condition_counterexample :
    ¬ failsAt (fileAt "a") (compiled (bytes "[[:foo:]]") (bytes "") 0) ∧
    validBase (compiled (bytes "[[:foo:]]") (bytes "") 0).Base ∧
    IsExcludedFromList panickingEnv (fileAt "a")
      { Excludes := [compiled (bytes "[[:foo:]]") (bytes "") 0] } = .error Panic.wildmatch := by
  refine ⟨?_, by decide, by decide⟩
  rw [failsAt_iff]; decide

/-- C17, amended. Exact failure conditions of the scan. `IsExcludedFromList` fails on the
assertion on the base iff some rule lacks `ExcFlagNodir`, is not skipped by
`ExcFlagMustbedir`, has a base that is non-empty and does not end with `'/'`, and every rule
after it in the list (the rules scanned before it) rejects the candidate; whether that rule
itself would match plays no part. It panics in the glob engine iff the match of some rule
that is not skipped (and has a well-formed base if it lacks `ExcFlagNodir`) panics there and
the scan goes past every rule after it. There is no other panic, and a rule set in which
every rule lacking `ExcFlagNodir` has a base that is empty or ends with `'/'` and the match
of every rule returns never panics. When the match of every rule returns, the assertion on
the base is the only panic, and it fails iff no rule after the malformed one matches. -/
theorem scan_failure_condition (env : Env) (d : Dirent) (l : List Exclude) :
    (IsExcludedFromList env d { Excludes := l } = .error Panic.invalidBase ↔
      ∃ i, ∃ hi : i < l.length, failsAt d (l.get ⟨i, hi⟩) ∧
        ∀ j (hj : j < l.length), i < j → ruleRejects env d (l.get ⟨j, hj⟩)) ∧
    (IsExcludedFromList env d { Excludes := l } = .error Panic.wildmatch ↔
      ∃ i, ∃ hi : i < l.length, globFailsAt env d (l.get ⟨i, hi⟩) ∧
        ∀ j (hj : j < l.length), i < j → passesOver env d (l.get ⟨j, hj⟩)) ∧
    (∀ p, IsExcludedFromList env d { Excludes := l } = .error p →
      p = Panic.invalidBase ∨ p = Panic.wildmatch) ∧
    ((∀ e ∈ l, hasFlag e.Flags ExcFlagNodir = false → validBase e.Base) →
      (∀ e ∈ l, ruleReturns env d e) →
      ∃ r, IsExcludedFromList env d { Excludes := l } = .ok r) ∧
    ((∀ e ∈ l, ruleReturns env d e) →
      (IsExcludedFromList env d { Excludes := l } = .error Panic.invalidBase ↔
        ∃ i, ∃ hi : i < l.length, failsAt d (l.get ⟨i, hi⟩) ∧
          ∀ j (hj : j < l.length), i < j → ¬ ruleMatches env d (l.get ⟨j, hj⟩)) ∧
      (∀ p, IsExcludedFromList env d { Excludes := l } = .error p →
        p = Panic.invalidBase)) := by
  have hglob : IsExcludedFromList env d { Excludes := l } = .error Panic.wildmatch ↔
      ∃ i, ∃ hi : i < l.length, globFailsAt env d (l.get ⟨i, hi⟩) ∧
        ∀ j (hj : j < l.length), i < j → passesOver env d (l.get ⟨j, hj⟩) := by
    rw [IsExcludedFromList_error_iff]
    constructor
    · rintro ⟨i, hi, herr, hlast⟩
      exact ⟨i, hi, (ruleOutcome_wildmatch_iff env d _).mp herr, fun j hj hij =>
        (ruleOutcome_ok_false_iff env d _).mp (hlast j hj hij)⟩
    · rintro ⟨i, hi, herr, hlast⟩
      exact ⟨i, hi, (ruleOutcome_wildmatch_iff env d _).mpr herr, fun j hj hij =>
        (ruleOutcome_ok_false_iff env d _).mpr (hlast j hj hij)⟩
  have hany : ∀ p, IsExcludedFromList env d { Excludes := l } = .error p →
      p = Panic.invalidBase ∨ p = Panic.wildmatch := by
    intro p hp
    obtain ⟨i, hi, herr, _⟩ := (IsExcludedFromList_error_iff env d l p).mp hp
    exact ruleOutcome_error env d _ p herr
  refine ⟨invalidBase_iff env d l, hglob, hany,
    fun hb hr => IsExcludedFromList_returns env d l hb hr, ?_⟩
  intro hr
  constructor
  · rw [invalidBase_iff]
    constructor
    · rintro ⟨i, hi, hfail, hrej⟩
      exact ⟨i, hi, hfail, fun j hj hij => not_matches_of_rejects env d _ (hrej j hj hij)⟩
    · rintro ⟨i, hi, hfail, hno⟩
      exact ⟨i, hi, hfail, fun j hj hij =>
        rejects_of_not_matches env d _ (hr _ (List.get_mem _ _ _)) (hno j hj hij)⟩
  · intro p hp
    rcases hany p hp with h | h
    · exact h
    · exfalso
      rw [h] at hp
      obtain ⟨i, hi, hg, _⟩ := hglob.mp hp
      exact not_globFailsAt_of_returns env d _ (hr _ (List.get_mem _ _ _)) hg

/-- C17 instance: the scan of `failingRules` reaches the malformed rule first and panics,
although the rule before it matches the candidate. -/
theorem scan_failure_condition_witness :
    ruleMatches sensitiveEnv (fileAt "foo") (compiled (bytes "foo") (bytes "") 0) ∧
    failsAt (fileAt "foo") (compiled (bytes "foo/bar") (bytes "bad") 1) ∧
    IsExcludedFromList sensitiveEnv (fileAt "foo") { Excludes := failingRules }
      = .error Panic.invalidBase := by
  have h := (scan_failure_condition sensitiveEnv (fileAt "foo") failingRules).1
  refine ⟨?_, ?_, ?_⟩
  · rw [ruleMatches_iff]; decide
  · rw [failsAt_iff]; decide
  · apply h.mpr
    refine ⟨1, by decide, ?_, ?_⟩
    · rw [failsAt_iff]; decide
    · intro j hj hij
      simp only [failingRules, List.length_cons, List.length_nil] at hj
      omega

/-! ## C18: the base check of the pathname match -/

/-- C18. Base check of the pathname match: for an `Exclude` whose base is `dir ++ "/"` with
`dir` non-empty, whatever its pattern, `MatchPathname` returns false in case-sensitive mode
for every candidate path that does not start with the base, for every glob engine; for every
`Exclude` it returns false for the empty candidate path; and the bytes of the base that are
compared are those of `dir`, without the trailing `'/'`: the match is refused as soon as
the first `len(dir)` bytes of the path differ from `dir` (case-sensitive mode), or
`strings.EqualFold` refuses them (case-insensitive mode). -/
theorem pathname_base_check (env : Env) (d : Dirent) (e : Exclude) (dir : Str) :
    (e.Base = dir ++ bytes "/" → dir ≠ [] → env.SystemCaseNil = true →
      ¬ e.Base <+: d.pathname → MatchPathname env d e = .ok false) ∧
    (d.pathname = [] → MatchPathname env d e = .ok false) ∧
    (e.Base = dir ++ bytes "/" → env.SystemCaseNil = true →
      d.pathname.take dir.length ≠ dir → MatchPathname env d e = .ok false) ∧
    (e.Base = dir ++ bytes "/" → env.SystemCaseNil = false →
      env.EqualFold (d.pathname.take dir.length) dir = false →
      MatchPathname env d e = .ok false) := by
  refine ⟨?_, ?_, ?_, ?_⟩
  · intro hbase hdir hcs hnp
    rw [MatchPathname_eq, pathnameResult_outside_base env d e
      (by rw [hbase, bytes_slash]; simp)
      (Or.inr ⟨hcs, by
        rw [hbase, bytes_slash]
        intro h
        have := congrArg List.length h
        simp at this
        exact hdir this, hnp⟩)]
  · intro hd
    rw [MatchPathname_eq, pathnameResult_empty_path env d e hd]
  · intro hbase hcs hne
    rw [MatchPathname_eq, pathnameResult_of_base_mismatch env d e dir hbase]
    rw [cmpN_sensitive env hcs, List.take_length]
    simpa using hne
  · intro hbase hcs hne
    rw [MatchPathname_eq, pathnameResult_of_base_mismatch env d e dir hbase]
    unfold cmpN
    rw [hcs, List.take_length]
    simpa using hne

/-- C18 instance: the rule `exclude-me/too` based in `in/subfolder/` and the candidate
`in/subfolden` of the test "basename does not match". -/
theorem pathname_base_check_witness :
    (compiled (bytes "exclude-me/too") (bytes "in/subfolder/") 0).Base
      = bytes "in/subfolder" ++ bytes "/" ∧
    bytes "in/subfolder" ≠ [] ∧ sensitiveEnv.SystemCaseNil = true ∧
    ¬ (compiled (bytes "exclude-me/too") (bytes "in/subfolder/") 0).Base
      <+: (fileAt "in/subfolden").pathname ∧
    MatchPathname sensitiveEnv (fileAt "in/subfolden")
      (compiled (bytes "exclude-me/too") (bytes "in/subfolder/") 0) = .ok false :=
  ⟨by decide, by decide, rfl, by decide,
    (pathname_base_check sensitiveEnv (fileAt "in/subfolden")
      (compiled (bytes "exclude-me/too") (bytes "in/subfolder/") 0) (bytes "in/subfolder")).1
      (by decide) (by decide) rfl (by decide)⟩

/-! ## C19: basename rules and separators -/

/-- C19 (what the code does). The raw pattern `foo//` loses one trailing `'/'`; what is
left, `foo/`, still holds a `'/'`, and `ParseExcludePattern` sets `ExcFlagNodir` all the
same, because that `'/'` is the last byte of the pattern. -/
theorem nodir_with_separator :
    ∃ flags, ParseExcludePattern (bytes "foo//") = .ok (bytes "foo/", flags) ∧
      hasFlag flags ExcFlagNodir = true ∧ hasFlag flags ExcFlagMustbedir = true ∧
      slash ∈ bytes "foo/" :=
  ⟨ExcFlagNodir ||| ExcFlagMustbedir, by decide, by decide, by decide, by decide⟩

/-! ## C20: no slice or index out of range -/

/-- C20. No out-of-range slicing or indexing: `ParseExcludePattern` returns for every raw
pattern, and so do `CreateExclude` and `AddExclude`; for every `Exclude` value whatsoever
(arbitrary pattern, base and flags) and every candidate path, none of the slices and
indexings of `MatchBasename` and `MatchPathname` is out of range: the only panic of either
is one raised inside the glob engine, and both return whenever the glob engine answers. -/
theorem no_out_of_range (env : Env) (d : Dirent) (e : Exclude) (raw base : Str)
    (srcpos : Int) (el : ExcludeList) :
    (∃ r, ParseExcludePattern raw = .ok r) ∧
    (∃ r, CreateExclude raw base srcpos = .ok r) ∧
    (∃ r, el.AddExclude raw base srcpos = .ok r) ∧
    (MatchBasename env d e ≠ .error Panic.sliceBounds ∧
      MatchBasename env d e ≠ .error Panic.indexRange) ∧
    (MatchPathname env d e ≠ .error Panic.sliceBounds ∧
      MatchPathname env d e ≠ .error Panic.indexRange) ∧
    (∀ p, MatchBasename env d e = .error p → p = Panic.wildmatch) ∧
    (∀ p, MatchPathname env d e = .error p → p = Panic.wildmatch) ∧
    (globAnswers env →
      (∃ r, MatchBasename env d e = .ok r) ∧ (∃ r, MatchPathname env d e = .ok r)) := by
  have hbn : ∀ p, MatchBasename env d e = .error p → p = Panic.wildmatch := by
    intro p hp
    rw [MatchBasename_eq] at hp
    exact basenameResult_error env d e p hp
  have hpn : ∀ p, MatchPathname env d e = .error p → p = Panic.wildmatch := by
    intro p hp
    rw [MatchPathname_eq] at hp
    exact pathnameResult_error env d e p hp
  refine ⟨⟨_, ParseExcludePattern_ok raw⟩, ⟨_, CreateExclude_eq raw base srcpos⟩,
    ⟨_, AddExclude_eq el raw base srcpos⟩,
    ⟨fun h => absurd (hbn _ h) (by decide), fun h => absurd (hbn _ h) (by decide)⟩,
    ⟨fun h => absurd (hpn _ h) (by decide), fun h => absurd (hpn _ h) (by decide)⟩,
    hbn, hpn, ?_⟩
  intro hans
  constructor
  · rw [MatchBasename_eq]; exact basenameResult_ok env hans d e
  · rw [MatchPathname_eq]; exact pathnameResult_ok env hans d e

/-- C20 instance: with the engine of `sensitiveEnv`, which answers every query, both
matchers return on an `Exclude` with `ExcFlagEndswith` set on an empty pattern and the empty
candidate path. -/
theorem no_out_of_range_witness :
    globAnswers sensitiveEnv ∧
    (∃ r, MatchBasename sensitiveEnv (fileAt "") (Exclude.mk [] [] ExcFlagEndswith 0) = .ok r) ∧
    (∃ r, MatchPathname sensitiveEnv (fileAt "") (Exclude.mk [] [] ExcFlagEndswith 0) = .ok r) :=
  ⟨fun _ _ h => Option.noConfusion h,
    (no_out_of_range sensitiveEnv (fileAt "") (Exclude.mk [] [] ExcFlagEndswith 0) [] [] 0
      CreateExcludeList).2.2.2.2.2.2.2 (fun _ _ h => Option.noConfusion h)⟩

end Gitignore
